import Mathlib

/-!
Verification development for the `yoru` UI-toolkit core: the reactive
dependency-tracking graph (`src/tracking.rs`), the box-model geometry
(`src/math.rs`), the layout cache and solver (`src/layout.rs`), and the
interaction-set aggregation (`src/interact.rs`).

Scalars: the Rust code computes with `f32`.  We model `f32` by exact rational
arithmetic extended with the special values `+inf`, `-inf` and `nan`
(IEEE-754 semantics minus rounding): `nan` is absorbing for arithmetic,
comparisons involving `nan` are false, and `nan == nan` is false.  Negative
zero is identified with zero; it plays no role in any of the code paths
modelled here.
-/

namespace Yoru

/-- The scalar type modelling `f32`: exact rationals plus `inf`, `ninf`, `nan`. -/
inductive F where
  | nan : F
  | inf : F
  | ninf : F
  | fin (q : ℚ) : F
deriving DecidableEq

namespace F

instance : OfNat F 0 := ⟨F.fin 0⟩
instance : OfNat F 1 := ⟨F.fin 1⟩

/-- IEEE addition (exact, no rounding). -/
def add : F → F → F
  | nan, _ => nan
  | _, nan => nan
  | inf, ninf => nan
  | ninf, inf => nan
  | inf, _ => inf
  | _, inf => inf
  | ninf, _ => ninf
  | _, ninf => ninf
  | fin a, fin b => fin (a + b)

/-- IEEE negation. -/
def neg : F → F
  | nan => nan
  | inf => ninf
  | ninf => inf
  | fin a => fin (-a)

/-- IEEE subtraction (exact, no rounding). -/
def sub (x y : F) : F := add x (neg y)

/-- IEEE multiplication (exact, no rounding); `0 * ±inf = nan`. -/
def mul : F → F → F
  | nan, _ => nan
  | _, nan => nan
  | inf, inf => inf
  | inf, ninf => ninf
  | ninf, inf => ninf
  | ninf, ninf => inf
  | inf, fin b => if b = 0 then nan else if 0 < b then inf else ninf
  | fin a, inf => if a = 0 then nan else if 0 < a then inf else ninf
  | ninf, fin b => if b = 0 then nan else if 0 < b then ninf else inf
  | fin a, ninf => if a = 0 then nan else if 0 < a then ninf else inf
  | fin a, fin b => fin (a * b)

/-- IEEE division (exact, no rounding); `x / 0` gives a signed infinity or `nan`. -/
def div : F → F → F
  | nan, _ => nan
  | _, nan => nan
  | inf, inf => nan
  | inf, ninf => nan
  | ninf, inf => nan
  | ninf, ninf => nan
  | inf, fin b => if 0 ≤ b then inf else ninf
  | ninf, fin b => if 0 ≤ b then ninf else inf
  | fin _, inf => fin 0
  | fin _, ninf => fin 0
  | fin a, fin b =>
      if b = 0 then (if a = 0 then nan else if 0 < a then inf else ninf)
      else fin (a / b)

/-- IEEE equality test (`==` on `f32`): `nan` is not equal to anything. -/
def beq : F → F → Bool
  | nan, _ => false
  | _, nan => false
  | inf, inf => true
  | ninf, ninf => true
  | fin a, fin b => decide (a = b)
  | _, _ => false

/-- IEEE strict less-than (`<` on `f32`): false whenever `nan` is involved. -/
def ltB : F → F → Bool
  | nan, _ => false
  | _, nan => false
  | inf, _ => false
  | _, inf => true
  | ninf, ninf => false
  | ninf, _ => true
  | _, ninf => false
  | fin a, fin b => decide (a < b)

/-- IEEE non-strict less-or-equal (`<=` on `f32`): false whenever `nan` is involved. -/
def leB : F → F → Bool
  | nan, _ => false
  | _, nan => false
  | ninf, _ => true
  | _, ninf => false
  | _, inf => true
  | inf, _ => false
  | fin a, fin b => decide (a ≤ b)

/-- Rust `f32::max`: ignores a `nan` operand, otherwise the larger value. -/
def maxF : F → F → F
  | nan, y => y
  | x, nan => x
  | inf, _ => inf
  | _, inf => inf
  | ninf, y => y
  | x, ninf => x
  | fin a, fin b => fin (max a b)

instance : Add F := ⟨F.add⟩
instance : Neg F := ⟨F.neg⟩
instance : Sub F := ⟨F.sub⟩
instance : Mul F := ⟨F.mul⟩
instance : Div F := ⟨F.div⟩

@[simp] theorem fin_add_fin (a b : ℚ) : fin a + fin b = fin (a + b) := rfl

@[simp] theorem fin_sub_fin (a b : ℚ) : fin a - fin b = fin (a - b) := by
  show sub (fin a) (fin b) = fin (a - b)
  simp [sub, add, neg]
  ring

@[simp] theorem inf_sub_fin (b : ℚ) : inf - fin b = inf := rfl

@[simp] theorem ninf_sub_fin (b : ℚ) : ninf - fin b = ninf := rfl

@[simp] theorem nan_sub (y : F) : nan - y = nan := by cases y <;> rfl

@[simp] theorem fin_mul_fin (a b : ℚ) : fin a * fin b = fin (a * b) := rfl

@[simp] theorem fin_div_fin (a b : ℚ) (hb : b ≠ 0) : fin a / fin b = fin (a / b) := by
  show div (fin a) (fin b) = fin (a / b)
  simp [div, hb]

@[simp] theorem maxF_fin_fin (a b : ℚ) : maxF (fin a) (fin b) = fin (max a b) := rfl

@[simp] theorem beq_fin_fin (a b : ℚ) : beq (fin a) (fin b) = decide (a = b) := rfl

@[simp] theorem beq_fin_inf (a : ℚ) : beq (fin a) inf = false := rfl

@[simp] theorem beq_inf_inf : beq inf inf = true := rfl

@[simp] theorem beq_ninf_inf : beq ninf inf = false := rfl

@[simp] theorem beq_nan (y : F) : beq nan y = false := by cases y <;> rfl

@[simp] theorem ltB_fin_fin (a b : ℚ) : ltB (fin a) (fin b) = decide (a < b) := rfl

@[simp] theorem leB_fin_fin (a b : ℚ) : leB (fin a) (fin b) = decide (a ≤ b) := rfl

end F

/-! Geometry, translated from `src/math.rs`. -/

/-- Rust `math::Axis`. -/
inductive Axis where
  | horizontal
  | vertical
deriving DecidableEq

/-- Rust `Axis::cross`. -/
def Axis.cross : Axis → Axis
  | .horizontal => .vertical
  | .vertical => .horizontal

/-- Rust `math::Point` (fields `x`, `y`). -/
structure Point where
  x : F
  y : F
deriving DecidableEq

/-- Rust `math::Size` (fields declared in order `vertical`, `horizontal`). -/
structure Size where
  vertical : F
  horizontal : F
deriving DecidableEq

namespace Size

/-- Rust `Size::new(horizontal, vertical)`. -/
def new (horizontal vertical : F) : Size := ⟨vertical, horizontal⟩

/-- Rust `Size::from_axes`. -/
def from_axes (main_axis : Axis) (main_size cross_size : F) : Size :=
  match main_axis with
  | .horizontal => Size.new main_size cross_size
  | .vertical => Size.new cross_size main_size

/-- Rust `Size::width`. -/
def width (s : Size) : F := s.horizontal

/-- Rust `Size::height`. -/
def height (s : Size) : F := s.vertical

/-- Rust `Size::axis`. -/
def axis (s : Size) : Axis → F
  | .vertical => s.vertical
  | .horizontal => s.horizontal

/-- Rust `Size + Size`. -/
def add (a b : Size) : Size := ⟨a.vertical + b.vertical, a.horizontal + b.horizontal⟩

/-- Rust `Size - Size`. -/
def sub (a b : Size) : Size := ⟨a.vertical - b.vertical, a.horizontal - b.horizontal⟩

instance : Add Size := ⟨Size.add⟩
instance : Sub Size := ⟨Size.sub⟩

/-- Rust `PartialEq` on `Size` (fieldwise `f32` equality). -/
def beq (a b : Size) : Bool := F.beq a.vertical b.vertical && F.beq a.horizontal b.horizontal

@[simp] theorem size_add_def (a b : Size) :
    a + b = ⟨a.vertical + b.vertical, a.horizontal + b.horizontal⟩ := rfl

@[simp] theorem size_sub_def (a b : Size) :
    a - b = ⟨a.vertical - b.vertical, a.horizontal - b.horizontal⟩ := rfl

end Size

/-- Rust `math::Rect` (fields `x`, `y`, `w`, `h`). -/
structure Rect where
  x : F
  y : F
  w : F
  h : F
deriving DecidableEq

namespace Rect

/-- Rust `Rect::from_xywh`. -/
def from_xywh (x y w h : F) : Rect := ⟨x, y, w, h⟩

/-- Rust `Rect::from_lrtb`. -/
def from_lrtb (left right top bottom : F) : Rect :=
  from_xywh left top (right - left) (bottom - top)

/-- Rust `Rect::from_topleft_size`. -/
def from_topleft_size (topleft : Point) (size : Size) : Rect :=
  ⟨topleft.x, topleft.y, size.horizontal, size.vertical⟩

def left (r : Rect) : F := r.x
def right (r : Rect) : F := r.x + r.w
def top (r : Rect) : F := r.y
def bottom (r : Rect) : F := r.y + r.h

/-- Rust `Rect::top_left`. -/
def top_left (r : Rect) : Point := ⟨r.x, r.y⟩

/-- Rust `Rect::size`. -/
def size (r : Rect) : Size := Size.new r.w r.h

/-- Rust `Rect::clamp_positive`: clamp width and height to be non-negative. -/
def clamp_positive (r : Rect) : Rect := ⟨r.x, r.y, F.maxF r.w 0, F.maxF r.h 0⟩

/-- Rust `PartialEq` on `Rect` (fieldwise `f32` equality). -/
def beq (a b : Rect) : Bool :=
  F.beq a.x b.x && F.beq a.y b.y && F.beq a.w b.w && F.beq a.h b.h

/-- The all-zero rectangle (`bytemuck::zeroed`). -/
def zeroed : Rect := ⟨0, 0, 0, 0⟩

end Rect

/-- Rust `math::SizeRect` (fields `left`, `right`, `top`, `bottom`). -/
structure SizeRect where
  left : F
  right : F
  top : F
  bottom : F
deriving DecidableEq

namespace SizeRect

/-- Rust `SizeRect::new`. -/
def new (left right top bottom : F) : SizeRect := ⟨left, right, top, bottom⟩

/-- Rust `SizeRect::from_axis`. -/
def from_axis (axis : Axis) (start finish : F) : SizeRect :=
  match axis with
  | .horizontal => new start finish 0 0
  | .vertical => new 0 0 start finish

/-- Rust `SizeRect::from_border`. -/
def from_border (size : F) : SizeRect := new size size size size

/-- Rust `SizeRect::sum_axes`. -/
def sum_axes (s : SizeRect) : Size :=
  ⟨s.top + s.bottom, s.left + s.right⟩

/-- Rust `SizeRect + SizeRect`. -/
def add (a b : SizeRect) : SizeRect :=
  ⟨a.left + b.left, a.right + b.right, a.top + b.top, a.bottom + b.bottom⟩

instance : Add SizeRect := ⟨SizeRect.add⟩

/-- Rust `f32 * SizeRect` (componentwise scale). -/
def smul (k : F) (s : SizeRect) : SizeRect :=
  ⟨k * s.left, k * s.right, k * s.top, k * s.bottom⟩

instance : HMul F SizeRect SizeRect := ⟨SizeRect.smul⟩

@[simp] theorem sizeRect_add_def (a b : SizeRect) :
    a + b = ⟨a.left + b.left, a.right + b.right, a.top + b.top, a.bottom + b.bottom⟩ := rfl

@[simp] theorem sizeRect_smul_def (k : F) (s : SizeRect) :
    k * s = ⟨k * s.left, k * s.right, k * s.top, k * s.bottom⟩ := rfl

end SizeRect

/-- Rust `Rect::grow_by`. -/
def Rect.grow_by (r : Rect) (s : SizeRect) : Rect :=
  Rect.from_lrtb (r.left - s.left) (r.right + s.right) (r.top - s.top) (r.bottom + s.bottom)

/-- Rust `Rect::shrink_by`. -/
def Rect.shrink_by (r : Rect) (s : SizeRect) : Rect :=
  Rect.from_lrtb (r.left + s.left) (r.right - s.right) (r.top + s.top) (r.bottom - s.bottom)

/-- The step of the loop inside `Rect::bounding_box`: extend `bounds` to cover
`rect`.  Note the Rust loop updates `bounds.x` first and then compares right
edges against the *updated* `bounds.x` with the *old* `bounds.w`. -/
def Rect.bbStep (bounds rect : Rect) : Rect :=
  let b1 := if F.ltB rect.x bounds.x then { bounds with x := rect.x } else bounds
  let b2 := if F.ltB rect.y b1.y then { b1 with y := rect.y } else b1
  let b3 := if F.ltB (b2.x + b2.w) (rect.x + rect.w) then
      { b2 with w := (rect.x + rect.w) - b2.x } else b2
  let b4 := if F.ltB (b3.y + b3.h) (rect.y + rect.h) then
      { b3 with h := (rect.y + rect.h) - b3.y } else b3
  b4

/-- Rust `Rect::bounding_box` over an iterator of rectangles. -/
def Rect.bounding_box : List Rect → Option Rect
  | [] => none
  | r :: rest => some (rest.foldl Rect.bbStep r)

/-! Style attributes, translated from `src/style.rs` (with the container
fields that `src/layout.rs` reads on `LayoutStyle`). -/

/-- Rust `style::Sizing`. -/
inductive Sizing where
  | expand
  | fit
  | fixed (size : F)
deriving DecidableEq

/-- Rust `Sizing::as_definite`. -/
def Sizing.as_definite (s : Sizing) (scale_factor : F) : Option F :=
  match s with
  | .expand => none
  | .fit => none
  | .fixed size => some (size * scale_factor)

/-- Rust `style::Justify`. -/
inductive Justify where
  | min
  | max
  | center
deriving DecidableEq

/-- Rust `style::Direction`. -/
inductive Direction where
  | positive
  | negative
deriving DecidableEq

/-- Rust `style::LayoutStyle`, including the main/cross-axis container fields that
`BoxLayout::compute_layout_with_children` reads from `self.attrs`. -/
structure LayoutStyle where
  border_size : F
  padding : SizeRect
  margin : SizeRect
  width : Sizing
  height : Sizing
  main_axis : Axis
  main_direction : Direction
  main_justify : Justify
  cross_justify : Justify

/-! The layout cache and solver, translated from `src/layout.rs`. -/

/-- Rust `layout::LayoutInput`. -/
inductive LayoutInput where
  | computeSize (available : Size) (scale_factor : F)
  | finalLayout (allocated : Rect) (scale_factor : F)
deriving DecidableEq

namespace LayoutInput

/-- Rust `LayoutInput::available`. -/
def available : LayoutInput → Size
  | .computeSize a _ => a
  | .finalLayout allocated _ => allocated.size

/-- Rust `LayoutInput::scale_factor`. -/
def scale_factor : LayoutInput → F
  | .computeSize _ sf => sf
  | .finalLayout _ sf => sf

/-- Rust `PartialEq` on `LayoutInput` (derived; `f32` fields compare with IEEE `==`). -/
def beq : LayoutInput → LayoutInput → Bool
  | .computeSize a₁ sf₁, .computeSize a₂ sf₂ => a₁.beq a₂ && F.beq sf₁ sf₂
  | .finalLayout r₁ sf₁, .finalLayout r₂ sf₂ => r₁.beq r₂ && F.beq sf₁ sf₂
  | _, _ => false

end LayoutInput

/-- Rust `layout::ComputedLayout`. -/
structure ComputedLayout where
  margin_box : Rect
deriving DecidableEq

/-- Rust `layout::CachedLayout`: one cache slot. -/
structure CachedLayout where
  is_valid : Bool
  with_input : LayoutInput
  cached : ComputedLayout
deriving DecidableEq

/-- Rust `CachedLayout::new_invalid` (the `with_input`/`cached` fields are zeroed). -/
def CachedLayout.new_invalid : CachedLayout :=
  ⟨false, .computeSize ⟨0, 0⟩ 0, ⟨Rect.zeroed⟩⟩

/-- The three cache slots of `layout::LayoutCacheInner` (the parent link is
modelled separately, as a forest, for `invalidate`). -/
structure LayoutCacheState where
  cached_unknown : CachedLayout
  cached_known : CachedLayout
  cached_final : CachedLayout
deriving DecidableEq

/-- Rust `LayoutCache::new`: all three slots invalid. -/
def LayoutCacheState.new : LayoutCacheState :=
  ⟨CachedLayout.new_invalid, CachedLayout.new_invalid, CachedLayout.new_invalid⟩

/-- Which of the three slots `LayoutCache::get_or_update` selects. -/
inductive CacheSlot where
  | unknown
  | known
  | final
deriving DecidableEq

/-- The slot-selection logic at the top of `LayoutCache::get_or_update`:
`ComputeSize` with an infinite width or height goes to `cached_unknown`,
other `ComputeSize` inputs to `cached_known`, `FinalLayout` to `cached_final`. -/
def selectSlot (input : LayoutInput) : CacheSlot :=
  match input with
  | .computeSize available _ =>
      if F.beq available.width F.inf || F.beq available.height F.inf then .unknown
      else .known
  | .finalLayout _ _ => .final

def LayoutCacheState.slot (st : LayoutCacheState) : CacheSlot → CachedLayout
  | .unknown => st.cached_unknown
  | .known => st.cached_known
  | .final => st.cached_final

def LayoutCacheState.setSlot (st : LayoutCacheState) (c : CacheSlot) (v : CachedLayout) :
    LayoutCacheState :=
  match c with
  | .unknown => { st with cached_unknown := v }
  | .known => { st with cached_known := v }
  | .final => { st with cached_final := v }

/-- Rust `LayoutCache::get_or_update`, instrumented with the number of times the
closure `f` was invoked (0 on a cache hit, 1 otherwise).  On a miss the slot
is overwritten with `(true, input, f input)`. -/
def getOrUpdate (st : LayoutCacheState) (input : LayoutInput)
    (f : LayoutInput → ComputedLayout) : ComputedLayout × LayoutCacheState × Nat :=
  let cache := st.slot (selectSlot input)
  if cache.is_valid && cache.with_input.beq input then
    (cache.cached, st, 0)
  else
    let inner := f input
    (inner, st.setSlot (selectSlot input) ⟨true, input, inner⟩, 1)

/-- The closure passed to `get_or_update` by `BoxLayout::compute_layout_leaf`
(the cache-miss computation), with the node's `measure` closure abstracted as
a function. -/
def leafMissCompute (attrs : LayoutStyle) (measure : Size → F → Size)
    (input : LayoutInput) : ComputedLayout :=
  let scale_factor := input.scale_factor
  let spacing : SizeRect :=
    scale_factor * (attrs.margin + attrs.padding + SizeRect.from_border attrs.border_size)
  let content_box := input.available - spacing.sum_axes
  let measured_size := measure content_box scale_factor
  match input with
  | .computeSize _ _ =>
      ⟨Rect.from_topleft_size ⟨0, 0⟩ measured_size⟩
  | .finalLayout allocated _ =>
      ⟨Rect.from_topleft_size allocated.top_left measured_size⟩

/-- Rust `BoxLayout::compute_layout_leaf`. -/
def computeLayoutLeaf (attrs : LayoutStyle) (st : LayoutCacheState)
    (input : LayoutInput) (measure : Size → F → Size) :
    ComputedLayout × LayoutCacheState × Nat :=
  getOrUpdate st input (leafMissCompute attrs measure)

/-- Rust `layout::Layout`: the four nested boxes exposed to drawing/hit-testing. -/
structure Layout where
  margin_box : Rect
  border_box : Rect
  padding_box : Rect
  content_box : Rect
  scale_factor : F
deriving DecidableEq

/-- Rust `BoxLayout::get_final_layout`: reads the `cached_final` slot and decomposes
its margin box; the `Bool` is the slot validity (`Ok` vs `Err`). -/
def getFinalLayout (attrs : LayoutStyle) (cached_final : CachedLayout) : Bool × Layout :=
  let margin_box := cached_final.cached.margin_box
  let scale_factor := cached_final.with_input.scale_factor
  let border_box := margin_box.shrink_by
    (scale_factor * (attrs.margin + (F.fin (1/2)) * SizeRect.from_border attrs.border_size))
  let padding_box := margin_box.shrink_by
    (scale_factor * (attrs.margin + SizeRect.from_border attrs.border_size))
  let content_box := margin_box.shrink_by
    (scale_factor * (attrs.margin + attrs.padding + SizeRect.from_border attrs.border_size))
  (cached_final.is_valid,
    { margin_box := margin_box.clamp_positive
      border_box := border_box.clamp_positive
      padding_box := padding_box.clamp_positive
      content_box := content_box.clamp_positive
      scale_factor := scale_factor })

/-! `BoxLayout::compute_layout_with_children` (the cache-miss computation).
A child `Element` is abstracted by its layout style sizings and by its
response to the measurement call `child.compute_layout(ComputeSize { .. })`
(the `ComputedLayout` margin box it returns). -/

/-- A child element, as seen by the container algorithm. -/
structure ChildElement where
  width : Sizing
  height : Sizing
  /-- The margin box returned by the child's `compute_layout` for a
  `ComputeSize { available, scale_factor }` request. -/
  computeSizeResponse : Size → F → Rect

/-- One record of the Rust `child_content_sizes` vector:
`(child_main_sizing, child_cross_sizing, child measured size)`. -/
structure ChildRecord where
  child_main_sizing : Sizing
  child_cross_sizing : Sizing
  child_content_size : Size

/-- The per-child body of the measure loop: pick the child's main/cross
sizings by axis, measure it with infinite main-axis availability, and record
its measured main/cross extents. -/
def measureChild (main_axis : Axis) (cross_available : F) (scale_factor : F)
    (child : ChildElement) : ChildRecord :=
  let child_main_sizing :=
    match main_axis with
    | .vertical => child.height
    | .horizontal => child.width
  let child_cross_sizing :=
    match main_axis with
    | .vertical => child.width
    | .horizontal => child.height
  let child_computed :=
    child.computeSizeResponse (Size.from_axes main_axis F.inf cross_available) scale_factor
  let child_main_space := child_computed.size.axis main_axis
  let child_cross_space := child_computed.size.axis main_axis.cross
  ⟨child_main_sizing, child_cross_sizing,
    Size.from_axes main_axis child_main_space child_cross_space⟩

/-- The main-axis placement loop of the arrange pass: walk the recorded
children in `main_direction` order, accumulating the cursor `curr`, and
produce each child's allocated rectangle (the `FinalLayout` passed to it). -/
def placeChildren (main_axis : Axis) (main_direction : Direction)
    (cross_justify : Justify) (content_box : Rect) (content_size : Size)
    (space_per_expand : F) : F → List ChildRecord → List Rect
  | _, [] => []
  | curr, rec :: rest =>
    let cross_axis := main_axis.cross
    let main_amount :=
      match rec.child_main_sizing with
      | .expand => space_per_expand * F.fin 1
      | .fixed _ => rec.child_content_size.axis main_axis
      | .fit => rec.child_content_size.axis main_axis
    let cross_amount :=
      match rec.child_cross_sizing with
      | .expand => content_box.size.axis cross_axis
      | .fixed _ => rec.child_content_size.axis cross_axis
      | .fit => rec.child_content_size.axis cross_axis
    let cross_start :=
      (match cross_axis with
        | .horizontal => content_box.left
        | .vertical => content_box.top) +
      (match cross_justify with
        | .min => F.fin 0
        | .max => content_size.axis cross_axis - cross_amount
        | .center => (content_size.axis cross_axis - cross_amount) / F.fin 2)
    let child_allocated :=
      match main_axis, main_direction with
      | .horizontal, .positive =>
          Rect.from_lrtb curr (curr + main_amount) cross_start (cross_start + cross_amount)
      | .horizontal, .negative =>
          Rect.from_lrtb (curr - main_amount) curr cross_start (cross_start + cross_amount)
      | .vertical, .positive =>
          Rect.from_lrtb cross_start (cross_start + cross_amount) curr (curr + main_amount)
      | .vertical, .negative =>
          Rect.from_lrtb cross_start (cross_start + cross_amount) (curr - main_amount) curr
    let curr' :=
      match main_direction with
      | .positive => curr + main_amount
      | .negative => curr - main_amount
    child_allocated :: placeChildren main_axis main_direction cross_justify
      content_box content_size space_per_expand curr' rest

/-- Rust `BoxLayout::compute_layout_with_children` (cache-miss computation).
Returns `none` when the `assert_ne!(main_available, f32::INFINITY)` assertion
fires (a panic); otherwise the container's own `ComputedLayout` together with
the list of rectangles allocated to the children (the `FinalLayout` inputs
recursively passed to them; empty for a `ComputeSize` request, which returns
before the arrange pass). -/
def computeLayoutWithChildren (attrs : LayoutStyle) (input : LayoutInput)
    (children : List ChildElement) : Option (ComputedLayout × List Rect) :=
  let scale_factor := input.scale_factor
  let spacing : SizeRect :=
    scale_factor * (attrs.margin + attrs.padding + SizeRect.from_border attrs.border_size)
  let main_axis := attrs.main_axis
  let cross_axis := main_axis.cross
  let main_sizing :=
    match main_axis with
    | .vertical => attrs.height
    | .horizontal => attrs.width
  let cross_sizing :=
    match main_axis with
    | .vertical => attrs.width
    | .horizontal => attrs.height
  let main_justify := attrs.main_justify
  let main_direction := attrs.main_direction
  let cross_justify := attrs.cross_justify
  let available_content_size := input.available - spacing.sum_axes
  let main_available := available_content_size.axis main_axis
  let cross_available := available_content_size.axis cross_axis
  -- The measure loop: the pushed records, and the four running accumulators
  -- (each folded in loop order).
  let child_content_sizes :=
    children.map (measureChild main_axis cross_available scale_factor)
  let total_expand_factor :=
    child_content_sizes.foldl (fun t rec =>
      match rec.child_main_sizing with
      | .expand => t + F.fin 1
      | _ => t) (F.fin 0)
  let max_space_per_expand :=
    child_content_sizes.foldl (fun m rec =>
      match rec.child_main_sizing with
      | .expand => F.maxF m (rec.child_content_size.axis main_axis / F.fin 1)
      | _ => m) (F.fin 0)
  let total_main_space :=
    child_content_sizes.foldl (fun t rec =>
      match rec.child_main_sizing with
      | .expand => t
      | _ => t + rec.child_content_size.axis main_axis) (F.fin 0)
  let max_cross_space :=
    child_content_sizes.foldl (fun m rec =>
      F.maxF m (rec.child_content_size.axis cross_axis)) (F.fin 0)
  let total_main_space := total_main_space + total_expand_factor * max_space_per_expand
  let main_content_size := (main_sizing.as_definite scale_factor).getD total_main_space
  let cross_content_size := (cross_sizing.as_definite scale_factor).getD max_cross_space
  let content_size := Size.from_axes main_axis main_content_size cross_content_size
  match input with
  | .computeSize _ _ =>
      -- Early return: margin box = content size + spacing, placed at origin.
      some (⟨Rect.from_topleft_size ⟨0, 0⟩ (content_size + spacing.sum_axes)⟩, [])
  | .finalLayout allocated₀ _ =>
      if F.beq main_available F.inf then
        none  -- `assert_ne!(main_available, f32::INFINITY)` panics
      else
        let (allocated, space_per_expand) :=
          let remaining :=
            (allocated₀.shrink_by spacing).size.axis main_axis - content_size.axis main_axis
          if F.ltB (F.fin 0) remaining then
            if F.beq total_expand_factor (F.fin 0) then
              let (min_shrink, max_shrink) :=
                match main_justify with
                | .min => (F.fin 0, remaining)
                | .max => (remaining, F.fin 0)
                | .center => (remaining / F.fin 2, remaining / F.fin 2)
              (allocated₀.shrink_by (SizeRect.from_axis main_axis min_shrink max_shrink),
                F.fin 0)
            else
              (allocated₀, remaining / total_expand_factor)
          else
            (allocated₀, F.fin 0)
        let content_box := allocated.shrink_by spacing
        let curr :=
          match main_axis, main_direction with
          | .horizontal, .positive => content_box.left
          | .horizontal, .negative => content_box.right
          | .vertical, .positive => content_box.top
          | .vertical, .negative => content_box.bottom
        let rects := placeChildren main_axis main_direction cross_justify
          content_box content_size space_per_expand curr child_content_sizes
        some (⟨allocated⟩, rects)

/-! `InteractSet`, translated from `src/interact.rs`. -/

/-- Rust `interact::InteractSet`. -/
structure InteractSet where
  click : Bool
  click_area : Rect
deriving DecidableEq

/-- Rust `InteractSet::empty` / `InteractSet::default`: all-zero. -/
def InteractSet.empty : InteractSet := ⟨false, Rect.zeroed⟩

/-- Rust `InteractSet | InteractSet` (`BitOr`): OR of the flags, and
`Rect::bounding_box([self.click_area, rhs.click_area]).unwrap()` for the area
(the two-element list is never empty, so the `unwrap` always succeeds;
`getD` stands in for it). -/
def InteractSet.or (a b : InteractSet) : InteractSet :=
  ⟨a.click || b.click,
    (Rect.bounding_box [a.click_area, b.click_area]).getD Rect.zeroed⟩

/-! The reactive dependency graph, translated from `src/tracking.rs`.

Observers live in a heap addressed by natural numbers.  A `Weak<ObserverInner>`
is an id whose `upgrade` succeeds exactly when the id is allocated (`< n`) and
still alive.  Each observer's embedded `ObservableInner` holds a list of
dependent ids; `is_dirty` is a `Bool` (`true` = `Dirtiness::Dirty`). -/

/-- The static part of the observer heap: allocation bound, liveness, and each
observer's dependent list. -/
structure TGraph where
  n : Nat
  alive : Nat → Bool
  deps : Nat → List Nat

/-- Rust `Weak::upgrade` succeeds for `j`. -/
def TGraph.upgradeOk (g : TGraph) (j : Nat) : Bool :=
  decide (j < g.n) && g.alive j

/-- Set observer `i`'s dirty flag (`observer.is_dirty.set(Dirtiness::Dirty)`). -/
def setD (d : Nat → Bool) (i : Nat) : Nat → Bool :=
  fun j => if j = i then true else d j

/-- One iteration of the loop body of `mark_and_push_children`: upgrade the
weak reference, and if the observer is clean, mark it dirty and push it. -/
def mpStep (g : TGraph) (st : (Nat → Bool) × List Nat) (j : Nat) : (Nat → Bool) × List Nat :=
  if g.upgradeOk j && !st.1 j then (setD st.1 j, j :: st.2) else st

/-- Rust `mark_and_push_children`: iterate `mpStep` over a dependents list.  The
state is (dirty flags, worklist); pushing conses onto the worklist, and the
loop pops from the head, matching the LIFO order of `Vec::push`/`Vec::pop`. -/
def markAndPush (g : TGraph) (st : (Nat → Bool) × List Nat) (L : List Nat) :
    (Nat → Bool) × List Nat :=
  L.foldl (mpStep g) st

/-- Number of live, clean observers: the termination measure of the worklist
traversal only ever decreases when one of these is newly dirtied. -/
def cleanCount (g : TGraph) (d : Nat → Bool) : Nat :=
  ((Finset.range g.n).filter (fun i => g.alive i = true ∧ d i = false)).card

theorem cleanCount_setD {g : TGraph} {d : Nat → Bool} {j : Nat}
    (hj : j < g.n) (ha : g.alive j = true) (hd : d j = false) :
    cleanCount g (setD d j) + 1 = cleanCount g d := by
  classical
  have hmem : j ∈ (Finset.range g.n).filter (fun i => g.alive i = true ∧ d i = false) := by
    simp [Finset.mem_filter, Finset.mem_range, hj, ha, hd]
  have hset : (Finset.range g.n).filter (fun i => g.alive i = true ∧ setD d j i = false)
      = ((Finset.range g.n).filter (fun i => g.alive i = true ∧ d i = false)).erase j := by
    ext i
    by_cases hij : i = j
    · subst hij
      simp [Finset.mem_filter, Finset.mem_erase, setD]
    · simp [Finset.mem_filter, Finset.mem_erase, setD, hij]
  have hpos : 0 < ((Finset.range g.n).filter
      (fun i => g.alive i = true ∧ d i = false)).card := Finset.card_pos.mpr ⟨j, hmem⟩
  unfold cleanCount
  rw [hset, Finset.card_erase_of_mem hmem]
  omega

theorem mpStep_measure (g : TGraph) (st : (Nat → Bool) × List Nat) (j : Nat) :
    2 * cleanCount g (mpStep g st j).1 + (mpStep g st j).2.length
      ≤ 2 * cleanCount g st.1 + st.2.length := by
  unfold mpStep
  by_cases h : (g.upgradeOk j && !st.1 j) = true
  · simp only [h, if_pos]
    have h' : (j < g.n ∧ g.alive j = true) ∧ st.1 j = false := by
      simpa [TGraph.upgradeOk] using h
    have := @cleanCount_setD g st.1 j h'.1.1 h'.1.2 h'.2
    simp only [List.length_cons]
    omega
  · simp only [h]
    simp

theorem markAndPush_measure (g : TGraph) (L : List Nat) :
    ∀ st : (Nat → Bool) × List Nat,
      2 * cleanCount g (markAndPush g st L).1 + (markAndPush g st L).2.length
        ≤ 2 * cleanCount g st.1 + st.2.length := by
  induction L with
  | nil => intro st; simp [markAndPush]
  | cons j L ih =>
    intro st
    have h1 : markAndPush g st (j :: L) = markAndPush g (mpStep g st j) L := by
      simp [markAndPush]
    rw [h1]
    exact le_trans (ih (mpStep g st j)) (mpStep_measure g st j)

/-- The worklist loop of `ObservableInner::trigger`: pop an observer, mark and
push its clean dependents, repeat until the worklist is empty. -/
def triggerLoop (g : TGraph) (d : Nat → Bool) (toVisit : List Nat) : Nat → Bool :=
  match toVisit with
  | [] => d
  | next :: rest =>
    let st := markAndPush g (d, rest) (g.deps next)
    triggerLoop g st.1 st.2
termination_by 2 * cleanCount g d + toVisit.length
decreasing_by
  have h := markAndPush_measure g (g.deps next) (d, rest)
  dsimp only at h
  simp only [List.length_cons]
  omega

/-- Rust `ObservableInner::trigger`, for an observable whose dependent list is
`dependents`: first `mark_and_push_children` on the observable itself, then
drain the worklist.  Returns the final dirty flags. -/
def trigger (g : TGraph) (d : Nat → Bool) (dependents : List Nat) : Nat → Bool :=
  let st := markAndPush g (d, []) dependents
  triggerLoop g st.1 st.2

/-- The observers that `trigger` is specified to newly dirty: the dependents
reachable from the triggering observable through chains of *currently clean*
observers (each hop must upgrade and find a clean flag in the pre-trigger
state `d₀`). -/
inductive Reaches (g : TGraph) (d₀ : Nat → Bool) (dependents : List Nat) : Nat → Prop where
  | root {j : Nat} : j ∈ dependents → g.upgradeOk j = true → d₀ j = false →
      Reaches g d₀ dependents j
  | step {i j : Nat} : Reaches g d₀ dependents i → j ∈ g.deps i →
      g.upgradeOk j = true → d₀ j = false → Reaches g d₀ dependents j

theorem Reaches.clean {g : TGraph} {d₀ : Nat → Bool} {dependents : List Nat} {j : Nat}
    (h : Reaches g d₀ dependents j) : d₀ j = false := by
  cases h with
  | root _ _ h => exact h
  | step _ _ _ h => exact h

theorem markAndPush_fst (g : TGraph) (L : List Nat) :
    ∀ (st : (Nat → Bool) × List Nat) (j : Nat),
      (markAndPush g st L).1 j = true ↔
        st.1 j = true ∨ (j ∈ L ∧ g.upgradeOk j = true) := by
  induction L with
  | nil => intro st j; simp [markAndPush]
  | cons a L ih =>
    intro st j
    have h1 : markAndPush g st (a :: L) = markAndPush g (mpStep g st a) L := by
      simp [markAndPush]
    rw [h1, ih]
    unfold mpStep
    by_cases hc : (g.upgradeOk a && !st.1 a) = true
    · have hup : g.upgradeOk a = true := by
        have := hc
        simp only [Bool.and_eq_true] at this
        exact this.1
      simp only [hc, if_pos]
      by_cases hja : j = a
      · subst hja
        simp [setD, hup]
      · simp [setD, hja, List.mem_cons]
    · simp only [hc]
      simp only [Bool.and_eq_true, Bool.not_eq_true'] at hc
      by_cases hja : j = a
      · subst hja
        rcases Decidable.not_and_iff_or_not.mp hc with h | h
        · simp only [Bool.not_eq_true] at h
          simp [List.mem_cons, h]
        · have hj : st.1 j = true := by
            by_contra hfalse
            exact h (by simpa using hfalse)
          simp [List.mem_cons, hj]
      · simp [List.mem_cons, hja]

theorem markAndPush_snd (g : TGraph) (L : List Nat) :
    ∀ (st : (Nat → Bool) × List Nat) (i : Nat),
      i ∈ (markAndPush g st L).2 ↔
        i ∈ st.2 ∨ (i ∈ L ∧ g.upgradeOk i = true ∧ st.1 i = false) := by
  induction L with
  | nil => intro st i; simp [markAndPush]
  | cons a L ih =>
    intro st i
    have h1 : markAndPush g st (a :: L) = markAndPush g (mpStep g st a) L := by
      simp [markAndPush]
    rw [h1, ih]
    unfold mpStep
    by_cases hc : (g.upgradeOk a && !st.1 a) = true
    · have hup : g.upgradeOk a = true := by
        have := hc
        simp only [Bool.and_eq_true] at this
        exact this.1
      have hcl : st.1 a = false := by
        have := hc
        simp only [Bool.and_eq_true, Bool.not_eq_true'] at this
        exact this.2
      simp only [hc, if_pos]
      by_cases hia : i = a
      · subst hia
        simp [List.mem_cons, hup, hcl]
      · simp [setD, List.mem_cons, hia]
    · simp only [hc]
      simp only [Bool.and_eq_true, Bool.not_eq_true'] at hc
      by_cases hia : i = a
      · subst hia
        rcases Decidable.not_and_iff_or_not.mp hc with h | h
        · simp only [Bool.not_eq_true] at h
          simp [List.mem_cons, h]
        · have hi : st.1 i = true := by
            by_contra hfalse
            exact h (by simpa using hfalse)
          simp [List.mem_cons, hi]
      · simp [List.mem_cons, hia]

theorem triggerLoop_mono (g : TGraph) :
    ∀ (d : Nat → Bool) (tv : List Nat) (j : Nat),
      d j = true → triggerLoop g d tv j = true := by
  intro d tv
  induction d, tv using triggerLoop.induct g with
  | case1 d => intro j h; simpa [triggerLoop] using h
  | case2 d next rest st ih =>
    intro j h
    rw [triggerLoop]
    exact ih j ((markAndPush_fst g (g.deps next) (d, rest) j).mpr (Or.inl h))

theorem triggerLoop_sound_closed (g : TGraph) (d₀ : Nat → Bool) (dependents : List Nat) :
    ∀ (d : Nat → Bool) (tv : List Nat),
      (∀ j, d₀ j = true → d j = true) →
      (∀ j, d j = true → d₀ j = true ∨ Reaches g d₀ dependents j) →
      (∀ i, i ∈ tv → Reaches g d₀ dependents i) →
      (∀ i, d i = true → d₀ i = false →
        i ∈ tv ∨ ∀ j ∈ g.deps i, g.upgradeOk j = true → d j = true) →
      (∀ j, triggerLoop g d tv j = true → d₀ j = true ∨ Reaches g d₀ dependents j) ∧
      (∀ i, triggerLoop g d tv i = true → d₀ i = false →
        ∀ j ∈ g.deps i, g.upgradeOk j = true → triggerLoop g d tv j = true) := by
  intro d tv
  induction d, tv using triggerLoop.induct g with
  | case1 d =>
    intro _ hsound _ hpend
    constructor
    · intro j h
      exact hsound j (by simpa [triggerLoop] using h)
    · intro i hi hid j hj hup
      have hi' : d i = true := by simpa [triggerLoop] using hi
      rcases hpend i hi' hid with h | h
      · exact absurd h (List.not_mem_nil i)
      · simpa [triggerLoop] using h j hj hup
  | case2 d next rest st ih =>
    intro hmono0 hsound htvR hpend
    have hRnext : Reaches g d₀ dependents next := htvR next (List.mem_cons_self next rest)
    -- Invariants for the post-`mark_and_push_children` state.
    have hmono0' : ∀ j, d₀ j = true → st.1 j = true := fun j h =>
      (markAndPush_fst g (g.deps next) (d, rest) j).mpr (Or.inl (hmono0 j h))
    have hsound' : ∀ j, st.1 j = true → d₀ j = true ∨ Reaches g d₀ dependents j := by
      intro j h
      rcases (markAndPush_fst g (g.deps next) (d, rest) j).mp h with h | ⟨hmem, hup⟩
      · exact hsound j h
      · by_cases hd : d j = true
        · exact hsound j hd
        · have hd₀ : d₀ j = false := by
            by_contra hcon
            exact hd (hmono0 j (by simpa using hcon))
          exact Or.inr (Reaches.step hRnext hmem hup hd₀)
    have htvR' : ∀ i, i ∈ st.2 → Reaches g d₀ dependents i := by
      intro i h
      rcases (markAndPush_snd g (g.deps next) (d, rest) i).mp h with h | ⟨hmem, hup, hcl⟩
      · exact htvR i (List.mem_cons_of_mem next h)
      · have hd₀ : d₀ i = false := by
          by_contra hcon
          have hdi := hmono0 i (by simpa using hcon)
          have hcl' : d i = false := hcl
          rw [hdi] at hcl'
          exact Bool.noConfusion hcl'
        exact Reaches.step hRnext hmem hup hd₀
    have hpend' : ∀ i, st.1 i = true → d₀ i = false →
        i ∈ st.2 ∨ ∀ j ∈ g.deps i, g.upgradeOk j = true → st.1 j = true := by
      intro i hi hid
      rcases (markAndPush_fst g (g.deps next) (d, rest) i).mp hi with hdi | ⟨hmem, hup⟩
      · rcases hpend i hdi hid with hmem' | hdone
        · rcases List.mem_cons.mp hmem' with rfl | hmem''
          · refine Or.inr (fun j hj hup => ?_)
            exact (markAndPush_fst g (g.deps i) (d, rest) j).mpr (Or.inr ⟨hj, hup⟩)
          · exact Or.inl ((markAndPush_snd g (g.deps next) (d, rest) i).mpr (Or.inl hmem''))
        · refine Or.inr (fun j hj hup => ?_)
          exact (markAndPush_fst g (g.deps next) (d, rest) j).mpr (Or.inl (hdone j hj hup))
      · by_cases hdi : d i = true
        · rcases hpend i hdi hid with hmem' | hdone
          · rcases List.mem_cons.mp hmem' with rfl | hmem''
            · refine Or.inr (fun j hj hup => ?_)
              exact (markAndPush_fst g (g.deps i) (d, rest) j).mpr (Or.inr ⟨hj, hup⟩)
            · exact Or.inl ((markAndPush_snd g (g.deps next) (d, rest) i).mpr (Or.inl hmem''))
          · refine Or.inr (fun j hj hup => ?_)
            exact (markAndPush_fst g (g.deps next) (d, rest) j).mpr (Or.inl (hdone j hj hup))
        · exact Or.inl ((markAndPush_snd g (g.deps next) (d, rest) i).mpr
            (Or.inr ⟨hmem, hup, by simpa using hdi⟩))
    have hrec := ih hmono0' hsound' htvR' hpend'
    constructor
    · intro j h
      exact hrec.1 j (by rw [triggerLoop] at h; exact h)
    · intro i hi hid j hj hup
      rw [triggerLoop]
      rw [triggerLoop] at hi
      exact hrec.2 i hi hid j hj hup

/-- Claim C2: `trigger` marks Dirty exactly the observers reachable from the
triggering observable through chains of currently-clean dependents: a node is
dirty after `trigger` iff it was already dirty or is a clean dependent
reachable through clean intermediate nodes (so the traversal never descends
past an already-dirty node, and a clean node reachable only through an
already-dirty node is left unchanged).  Termination of the worklist traversal
on every finite dependency graph, even with reconverging paths, is witnessed
by `trigger`/`triggerLoop` being total Lean functions (the measure
`2 * cleanCount + |worklist|` strictly decreases). -/
theorem trigger_characterization (g : TGraph) (d₀ : Nat → Bool)
    (dependents : List Nat) :
    ∀ j, trigger g d₀ dependents j = true ↔
      (d₀ j = true ∨ Reaches g d₀ dependents j) := by
  intro j
  show triggerLoop g (markAndPush g (d₀, []) dependents).1
    (markAndPush g (d₀, []) dependents).2 j = true ↔ _
  have hmono0 : ∀ k, d₀ k = true → (markAndPush g (d₀, []) dependents).1 k = true :=
    fun k h => (markAndPush_fst g dependents (d₀, []) k).mpr (Or.inl h)
  have hsound : ∀ k, (markAndPush g (d₀, []) dependents).1 k = true →
      d₀ k = true ∨ Reaches g d₀ dependents k := by
    intro k h
    rcases (markAndPush_fst g dependents (d₀, []) k).mp h with h | ⟨hmem, hup⟩
    · exact Or.inl h
    · by_cases hd : d₀ k = true
      · exact Or.inl hd
      · exact Or.inr (Reaches.root hmem hup (by simpa using hd))
  have htvR : ∀ i, i ∈ (markAndPush g (d₀, []) dependents).2 →
      Reaches g d₀ dependents i := by
    intro i h
    rcases (markAndPush_snd g dependents (d₀, []) i).mp h with h | ⟨hmem, hup, hcl⟩
    · exact absurd h (List.not_mem_nil i)
    · exact Reaches.root hmem hup hcl
  have hpend : ∀ i, (markAndPush g (d₀, []) dependents).1 i = true → d₀ i = false →
      i ∈ (markAndPush g (d₀, []) dependents).2 ∨
        ∀ k ∈ g.deps i, g.upgradeOk k = true →
          (markAndPush g (d₀, []) dependents).1 k = true := by
    intro i hi hid
    rcases (markAndPush_fst g dependents (d₀, []) i).mp hi with h | ⟨hmem, hup⟩
    · have h' : d₀ i = true := h
      rw [h'] at hid
      exact Bool.noConfusion hid
    · exact Or.inl ((markAndPush_snd g dependents (d₀, []) i).mpr
        (Or.inr ⟨hmem, hup, hid⟩))
  have hmain := triggerLoop_sound_closed g d₀ dependents
    (markAndPush g (d₀, []) dependents).1 (markAndPush g (d₀, []) dependents).2
    hmono0 hsound htvR hpend
  have hcomplete : ∀ k, Reaches g d₀ dependents k →
      triggerLoop g (markAndPush g (d₀, []) dependents).1
        (markAndPush g (d₀, []) dependents).2 k = true := by
    intro k h
    induction h with
    | root hmem hup _ =>
      exact triggerLoop_mono g _ _ _
        ((markAndPush_fst g dependents (d₀, []) _).mpr (Or.inr ⟨hmem, hup⟩))
    | step hi hmem hup _ ih =>
      exact hmain.2 _ ih hi.clean _ hmem hup
  constructor
  · intro h
    exact hmain.1 j h
  · rintro (h | h)
    · exact triggerLoop_mono g _ _ j (hmono0 j h)
    · exact hcomplete j h

/-! `ObserverInner::run_and_track`, `mark_dirty`, and `Derived::maybe_update`,
translated from `src/tracking.rs`.  The heap of observers, their dirty flags,
and the thread-local `SCOPE` form a `World`; an effectful closure is modelled
as an arbitrary state transformer on the world. -/

/-- The mutable world: the observer heap, the dirty flags, and the current
tracking scope (`SCOPE`). -/
structure World where
  graph : TGraph
  dirty : Nat → Bool
  scope : Option Nat

/-- Rust `ObserverInner::mark_dirty`: set the flag to `Dirty`, and only on the
`Clean → Dirty` transition trigger the observer's own observable. -/
def markDirtyW (w : World) (i : Nat) : World :=
  let old := w.dirty i
  if old = false then
    { w with dirty := trigger w.graph (setD w.dirty i) (w.graph.deps i) }
  else
    { w with dirty := setD w.dirty i }

@[simp] theorem markDirtyW_graph (w : World) (i : Nat) :
    (markDirtyW w i).graph = w.graph := by
  unfold markDirtyW
  by_cases h : w.dirty i = false <;> simp [h]

/-- Allocate a fresh observer (`Rc::new(ObserverInner { .. is_dirty: Clean })`)
and make it the current scope. -/
def World.withFresh (w : World) : World :=
  let fresh := w.graph.n
  { graph :=
      { n := fresh + 1
        alive := fun j => if j = fresh then true else w.graph.alive j
        deps := fun j => if j = fresh then [] else w.graph.deps j }
    dirty := fun j => if j = fresh then false else w.dirty j
    scope := some fresh }

/-- Rust `observer.is_dirty.set(Dirtiness::Clean)`. -/
def setClean (w : World) (i : Nat) : World :=
  { w with dirty := fun j => if j = i then false else w.dirty j }

/-- Rust `ObserverInner::run_and_track`: allocate a fresh clean observer, install it
as the scope, run `f` (an arbitrary effect on the world), restore the previous
scope, and unconditionally reset the observer's flag to `Clean`.  Returns the
fresh observer's id, the final world, and `f`'s value. -/
def runAndTrack {T : Type} (w : World) (f : World → World × T) : Nat × World × T :=
  let fresh := w.graph.n
  let w₁ := w.withFresh
  let p := f w₁
  let w₂ := { p.1 with scope := w.scope }
  (fresh, setClean w₂ fresh, p.2)

/-- Rust `tracking::Derived`: the cell's current observer and cached value (the
compute closure is passed to `maybe_update` explicitly). -/
structure Derived (V : Type) where
  as_observer : Nat
  value : V

/-- Rust `Derived::maybe_update(model)`: recompute (inside `run_and_track`) iff the
observer is dirty, replacing the cached value and the observer wholesale and
returning `true`; otherwise return `false` and change nothing.  The compute
closure takes the model and may also act on the world (its reads register
against the scope). -/
def Derived.maybe_update {A V : Type} (w : World) (a : A) (d : Derived V)
    (compute : A → World → (A × World) × V) : Bool × World × A × Derived V :=
  if w.dirty d.as_observer = true then
    let w₁ := markDirtyW w d.as_observer
    let r := runAndTrack w₁ (fun wx =>
      let c := compute a wx
      (c.1.2, (c.1.1, c.2)))
    (true, r.2.1, r.2.2.1, ⟨r.1, r.2.2.2⟩)
  else
    (false, w, a, d)

/-! The layout-cache invalidation forest, for `LayoutCache::invalidate`
(`src/layout.rs`).  Nodes are numbered so that the weak parent link always
points to a smaller id; this orientation witnesses the acyclicity of the
parent graph (an invariant of the widget tree). -/

/-- The parent forest of layout caches: `parent i` is node `i`'s weak parent
link, `alive` says whether the target `Rc` still exists (so that the weak
reference upgrades). -/
structure Forest where
  n : Nat
  parent : Nat → Option Nat
  alive : Nat → Bool
  parent_lt : ∀ i j, parent i = some j → j < i

/-- Rust `parent.borrow().as_ref().and_then(|parent| parent.0.upgrade())`. -/
def upgradeParent (fo : Forest) (i : Nat) : Option Nat :=
  match fo.parent i with
  | some j => if fo.alive j then some j else none
  | none => none

theorem upgradeParent_lt {fo : Forest} {i p : Nat} (h : upgradeParent fo i = some p) :
    p < i := by
  unfold upgradeParent at h
  cases hp : fo.parent i with
  | none => rw [hp] at h; simp at h
  | some j =>
    rw [hp] at h
    dsimp only at h
    by_cases ha : fo.alive j = true
    · rw [if_pos ha] at h
      cases h
      exact fo.parent_lt i _ hp
    · rw [if_neg ha] at h
      exact Option.noConfusion h

/-- Clear the `is_valid` flag of all three slots of one node
(the loop body of `LayoutCache::invalidate`). -/
def LayoutCacheState.invalidateSlots (st : LayoutCacheState) : LayoutCacheState :=
  { cached_unknown := { st.cached_unknown with is_valid := false }
    cached_known := { st.cached_known with is_valid := false }
    cached_final := { st.cached_final with is_valid := false } }

/-- Rust `LayoutCache::invalidate`: clear all three slots of the current node, then
walk the upgraded weak parent chain, clearing all three slots of every
ancestor, stopping when an upgrade fails or the root is reached. -/
def invalidate (fo : Forest) (caches : Nat → LayoutCacheState) (curr : Nat) :
    Nat → LayoutCacheState :=
  let caches' := fun k => if k = curr then (caches curr).invalidateSlots else caches k
  match h : upgradeParent fo curr with
  | some p => invalidate fo caches' p
  | none => caches'
termination_by curr
decreasing_by
  exact upgradeParent_lt h

/-- The ancestor chain actually walked by `invalidate`, starting at `start`:
the node itself and every ancestor reached through successfully upgrading
weak parent links. -/
inductive OnChain (fo : Forest) (start : Nat) : Nat → Prop where
  | refl : OnChain fo start start
  | up {i p : Nat} : OnChain fo start i → upgradeParent fo i = some p →
      OnChain fo start p

theorem OnChain.le {fo : Forest} {s k : Nat} (h : OnChain fo s k) : k ≤ s := by
  induction h with
  | refl => exact Nat.le_refl s
  | up _ hup ih => exact Nat.le_trans (Nat.le_of_lt (upgradeParent_lt hup)) ih

theorem OnChain.trans {fo : Forest} {s m k : Nat}
    (h1 : OnChain fo s m) (h2 : OnChain fo m k) : OnChain fo s k := by
  induction h2 with
  | refl => exact h1
  | up _ hup ih => exact OnChain.up ih hup

theorem OnChain_of_none {fo : Forest} {s k : Nat} (hs : upgradeParent fo s = none)
    (h : OnChain fo s k) : k = s := by
  induction h with
  | refl => rfl
  | up hi hup ih =>
    subst ih
    rw [hs] at hup
    exact Option.noConfusion hup

theorem OnChain_of_some {fo : Forest} {s p k : Nat} (hs : upgradeParent fo s = some p)
    (h : OnChain fo s k) : k = s ∨ OnChain fo p k := by
  induction h with
  | refl => exact Or.inl rfl
  | up hi hup ih =>
    rcases ih with rfl | hpk
    · rw [hs] at hup
      cases hup
      exact Or.inr OnChain.refl
    · exact Or.inr (OnChain.up hpk hup)

theorem invalidate_unfold (fo : Forest) (caches : Nat → LayoutCacheState) (curr : Nat) :
    invalidate fo caches curr =
      (match upgradeParent fo curr with
       | some p => invalidate fo
          (fun k => if k = curr then (caches curr).invalidateSlots else caches k) p
       | none => fun k => if k = curr then (caches curr).invalidateSlots else caches k) := by
  rw [invalidate]
  cases hup : upgradeParent fo curr <;> rfl

theorem invalidate_some {fo : Forest} {caches : Nat → LayoutCacheState} {curr p : Nat}
    (hup : upgradeParent fo curr = some p) :
    invalidate fo caches curr =
      invalidate fo (fun k => if k = curr then (caches curr).invalidateSlots else caches k) p := by
  rw [invalidate_unfold, hup]

theorem invalidate_none {fo : Forest} {caches : Nat → LayoutCacheState} {curr : Nat}
    (hup : upgradeParent fo curr = none) :
    invalidate fo caches curr =
      fun k => if k = curr then (caches curr).invalidateSlots else caches k := by
  rw [invalidate_unfold, hup]

/-- Claim C7 (frame property of `invalidate`): invalidating a node clears the
`is_valid` flag of all three cache slots on that node and on every ancestor
reachable through the upgraded weak parent chain (stopping at a failed
upgrade or the root), and leaves every node outside that chain — in
particular sibling subtrees — completely untouched. -/
theorem invalidate_spec (fo : Forest) :
    ∀ (curr : Nat) (caches : Nat → LayoutCacheState) (k : Nat),
      (OnChain fo curr k →
        (invalidate fo caches curr k).cached_unknown.is_valid = false ∧
        (invalidate fo caches curr k).cached_known.is_valid = false ∧
        (invalidate fo caches curr k).cached_final.is_valid = false) ∧
      (¬ OnChain fo curr k → invalidate fo caches curr k = caches k) := by
  intro curr
  induction curr using Nat.strong_induction_on with
  | _ curr ih =>
    intro caches k
    cases hup : upgradeParent fo curr with
    | some p =>
      have hres := @invalidate_some fo caches curr p hup
      have ihp := ih p (upgradeParent_lt hup)
        (fun k => if k = curr then (caches curr).invalidateSlots else caches k)
      constructor
      · intro hk
        rcases OnChain_of_some hup hk with rfl | hpk
        · have hnot : ¬ OnChain fo p k := by
            intro hcon
            exact absurd hcon.le (Nat.not_le.mpr (upgradeParent_lt hup))
          rw [hres, (ihp k).2 hnot]
          simp [LayoutCacheState.invalidateSlots]
        · rw [hres]
          exact (ihp k).1 hpk
      · intro hk
        have hkc : k ≠ curr := fun hkc => hk (hkc ▸ OnChain.refl)
        have hpk : ¬ OnChain fo p k := fun hcon =>
          hk (OnChain.trans (OnChain.up OnChain.refl hup) hcon)
        rw [hres, (ihp k).2 hpk]
        simp [hkc]
    | none =>
      have hres := @invalidate_none fo caches curr hup
      constructor
      · intro hk
        have hkc : k = curr := OnChain_of_none hup hk
        subst hkc
        rw [hres]
        simp [LayoutCacheState.invalidateSlots]
      · intro hk
        have hkc : k ≠ curr := fun hkc => hk (hkc ▸ OnChain.refl)
        rw [hres]
        simp [hkc]

/-- A three-node forest: node 1's parent is node 0 (all alive); node 2 is a
sibling with no parent link. -/
def exampleForest : Forest where
  n := 3
  parent := fun i => if i = 1 then some 0 else none
  alive := fun _ => true
  parent_lt := by
    intro i j h
    by_cases hi : i = 1
    · subst hi
      simp at h
      omega
    · simp [hi] at h

/-- A cache state in which every slot of every node is valid. -/
def allValidCaches : Nat → LayoutCacheState := fun _ =>
  ⟨⟨true, .computeSize ⟨0, 0⟩ 0, ⟨Rect.zeroed⟩⟩,
   ⟨true, .computeSize ⟨0, 0⟩ 0, ⟨Rect.zeroed⟩⟩,
   ⟨true, .computeSize ⟨0, 0⟩ 0, ⟨Rect.zeroed⟩⟩⟩

/-- Witness for `invalidate_spec`: invalidating node 1 clears its parent node
0's slots and leaves the sibling node 2 untouched. -/
theorem invalidate_spec_witness :
    ((invalidate exampleForest allValidCaches 1 0).cached_unknown.is_valid = false ∧
     (invalidate exampleForest allValidCaches 1 0).cached_known.is_valid = false ∧
     (invalidate exampleForest allValidCaches 1 0).cached_final.is_valid = false) ∧
    invalidate exampleForest allValidCaches 1 2 = allValidCaches 2 :=
  ⟨(invalidate_spec exampleForest 1 allValidCaches 0).1
      (OnChain.up OnChain.refl (by simp [upgradeParent, exampleForest])),
   (invalidate_spec exampleForest 1 allValidCaches 2).2
      (fun h => absurd h.le (by omega))⟩

/-! Rectangle containment (used to state box nesting). -/

/-- Containment of `inner` in `outer`, coordinatewise (IEEE comparisons). -/
def Rect.containsRect (outer inner : Rect) : Prop :=
  F.leB outer.left inner.left = true ∧ F.leB inner.right outer.right = true ∧
  F.leB outer.top inner.top = true ∧ F.leB inner.bottom outer.bottom = true

@[simp] theorem F.zero_def : (0 : F) = F.fin 0 := rfl

@[simp] theorem F.one_def : (1 : F) = F.fin 1 := rfl

/-- Closed form of one `bounding_box` step applied to the zero rectangle and a
finite rectangle. -/
theorem bbStep_zeroed (x y w h : ℚ) :
    Rect.bbStep Rect.zeroed ⟨F.fin x, F.fin y, F.fin w, F.fin h⟩ =
      ⟨F.fin (min x 0), F.fin (min y 0),
       F.fin (max (x + w) (min x 0) - min x 0),
       F.fin (max (y + h) (min y 0) - min y 0)⟩ := by
  unfold Rect.bbStep Rect.zeroed
  dsimp only
  split_ifs with h1 h2 h3 h4 <;>
    first
      | rfl
      | (simp only [F.zero_def, F.ltB_fin_fin, decide_eq_true_eq, F.fin_add_fin,
          F.fin_sub_fin, Rect.mk.injEq, F.fin.injEq] at * <;>
         refine ⟨?_, ?_, ?_, ?_⟩ <;> simp [min_def, max_def] <;> split_ifs <;> linarith)

/-- The zero rectangle is absorbed by `bbStep` exactly when the other
rectangle has non-positive offsets and non-negative dimensions. -/
theorem bbStep_zeroed_eq_self_iff (x y w h : ℚ) :
    Rect.bbStep Rect.zeroed ⟨F.fin x, F.fin y, F.fin w, F.fin h⟩ =
        ⟨F.fin x, F.fin y, F.fin w, F.fin h⟩ ↔
      (x ≤ 0 ∧ y ≤ 0 ∧ 0 ≤ w ∧ 0 ≤ h) := by
  rw [bbStep_zeroed]
  simp only [Rect.mk.injEq, F.fin.injEq]
  constructor
  · rintro ⟨e1, e2, e3, e4⟩
    have hx : x ≤ 0 := min_eq_left_iff.mp e1
    have hy : y ≤ 0 := min_eq_left_iff.mp e2
    rw [e1] at e3
    rw [e2] at e4
    have hw : 0 ≤ w := by
      rcases le_total (x + w) x with hle | hle
      · rw [max_eq_right hle] at e3
        simp at e3
        linarith
      · rw [max_eq_left hle] at e3
        linarith
    have hh : 0 ≤ h := by
      rcases le_total (y + h) y with hle | hle
      · rw [max_eq_right hle] at e4
        simp at e4
        linarith
      · rw [max_eq_left hle] at e4
        linarith
    exact ⟨hx, hy, hw, hh⟩
  · rintro ⟨hx, hy, hw, hh⟩
    rw [min_eq_left hx, min_eq_left hy, max_eq_left (by linarith), max_eq_left (by linarith)]
    refine ⟨rfl, rfl, by ring, by ring⟩

/-- Claim C8, counterexample: `InteractSet::default() | X == X` fails at
`X = { click: true, click_area: Rect(5, 5, 1, 1) }` — the union's bounding box
is dragged to the origin by the default's zeroed `click_area`, producing
`Rect(0, 0, 6, 6) ≠ Rect(5, 5, 1, 1)`.  So `default()` is not an identity
element and `InteractSet` is not a monoid under `|`. -/
theorem interact_set_identity_counterexample :
    InteractSet.empty.or ⟨true, ⟨F.fin 5, F.fin 5, F.fin 1, F.fin 1⟩⟩ ≠
      ⟨true, ⟨F.fin 5, F.fin 5, F.fin 1, F.fin 1⟩⟩ := by
  intro heq
  have hbb : InteractSet.empty.or ⟨true, ⟨F.fin 5, F.fin 5, F.fin 1, F.fin 1⟩⟩ =
      ⟨true, Rect.bbStep Rect.zeroed ⟨F.fin 5, F.fin 5, F.fin 1, F.fin 1⟩⟩ := by
    simp [InteractSet.or, InteractSet.empty, Rect.bounding_box]
  rw [hbb] at heq
  have harea : Rect.bbStep Rect.zeroed ⟨F.fin 5, F.fin 5, F.fin 1, F.fin 1⟩ =
      ⟨F.fin 5, F.fin 5, F.fin 1, F.fin 1⟩ := congrArg InteractSet.click_area heq
  have h5 : (5 : ℚ) ≤ 0 := ((bbStep_zeroed_eq_self_iff 5 5 1 1).mp harea).1
  norm_num at h5

/-- Claim C8, amended: the union's `click` flag is the boolean OR of the
operands' flags and its `click_area` is `Rect::bounding_box` of the two areas
(one `bbStep` of the second area into the first); `InteractSet::default()` is
*not* an identity element in general — for a finite `click_area`,
`default() | X == X` holds exactly when the area has non-positive `x`/`y`
offsets and non-negative dimensions. -/
theorem interact_set_or_spec :
    (∀ a b : InteractSet, (a.or b).click = (a.click || b.click)) ∧
    (∀ a b : InteractSet, (a.or b).click_area = Rect.bbStep a.click_area b.click_area) ∧
    (∀ (c : Bool) (x y w h : ℚ),
      InteractSet.empty.or ⟨c, ⟨F.fin x, F.fin y, F.fin w, F.fin h⟩⟩ =
          ⟨c, ⟨F.fin x, F.fin y, F.fin w, F.fin h⟩⟩ ↔
        (x ≤ 0 ∧ y ≤ 0 ∧ 0 ≤ w ∧ 0 ≤ h)) := by
  refine ⟨fun a b => rfl, fun a b => rfl, fun c x y w h => ?_⟩
  have hor : InteractSet.empty.or ⟨c, ⟨F.fin x, F.fin y, F.fin w, F.fin h⟩⟩ =
      ⟨c, Rect.bbStep Rect.zeroed ⟨F.fin x, F.fin y, F.fin w, F.fin h⟩⟩ := by
    simp [InteractSet.or, InteractSet.empty, Rect.bounding_box]
  rw [hor]
  constructor
  · intro heq
    have harea : Rect.bbStep Rect.zeroed ⟨F.fin x, F.fin y, F.fin w, F.fin h⟩ =
        ⟨F.fin x, F.fin y, F.fin w, F.fin h⟩ := congrArg InteractSet.click_area heq
    exact (bbStep_zeroed_eq_self_iff x y w h).mp harea
  · intro hcond
    rw [(bbStep_zeroed_eq_self_iff x y w h).mpr hcond]

/-- Witness for `interact_set_or_spec`: the identity law does hold for an
area spanning the origin, e.g. `Rect(-1, -1, 2, 2)`. -/
theorem interact_set_or_spec_witness :
    InteractSet.empty.or ⟨true, ⟨F.fin (-1), F.fin (-1), F.fin 2, F.fin 2⟩⟩ =
      ⟨true, ⟨F.fin (-1), F.fin (-1), F.fin 2, F.fin 2⟩⟩ :=
  (interact_set_or_spec.2.2 true (-1) (-1) 2 2).mpr (by norm_num)

/-! Claim C1: the cache hit law. -/

theorem LayoutCacheState.slot_setSlot_same (st : LayoutCacheState) (c : CacheSlot)
    (v : CachedLayout) : (st.setSlot c v).slot c = v := by
  cases c <;> rfl

theorem LayoutCacheState.new_slot_invalid (c : CacheSlot) :
    (LayoutCacheState.new.slot c).is_valid = false := by
  cases c <;> rfl

theorem getOrUpdate_hit (st : LayoutCacheState) (input : LayoutInput)
    (f : LayoutInput → ComputedLayout)
    (h1 : (st.slot (selectSlot input)).is_valid = true)
    (h2 : (st.slot (selectSlot input)).with_input.beq input = true) :
    getOrUpdate st input f = ((st.slot (selectSlot input)).cached, st, 0) := by
  unfold getOrUpdate
  simp [h1, h2]

theorem getOrUpdate_miss (st : LayoutCacheState) (input : LayoutInput)
    (f : LayoutInput → ComputedLayout)
    (h : ((st.slot (selectSlot input)).is_valid &&
          (st.slot (selectSlot input)).with_input.beq input) = false) :
    getOrUpdate st input f =
      (f input, st.setSlot (selectSlot input) ⟨true, input, f input⟩, 1) := by
  unfold getOrUpdate
  simp [h]

/-- Claim C1 (cache hit law): if the cache slot selected by the input's shape
is valid and its stored input equals the given input by value,
`get_or_update` returns the stored cached result and does not invoke the
closure at all (invocation count 0, state untouched); consequently, starting
from a fresh (all-invalid) cache, calling `compute_layout_leaf` twice with an
identical (self-equal, i.e. NaN-free) input and no intervening `invalidate`
invokes the measurement closure exactly once, the second call returning the
first call's result. -/
theorem cache_hit_law :
    (∀ (st : LayoutCacheState) (input : LayoutInput) (f : LayoutInput → ComputedLayout),
      (st.slot (selectSlot input)).is_valid = true →
      (st.slot (selectSlot input)).with_input.beq input = true →
      getOrUpdate st input f = ((st.slot (selectSlot input)).cached, st, 0)) ∧
    (∀ (attrs : LayoutStyle) (input : LayoutInput) (measure : Size → F → Size),
      input.beq input = true →
      (computeLayoutLeaf attrs LayoutCacheState.new input measure).2.2 +
        (computeLayoutLeaf attrs
          (computeLayoutLeaf attrs LayoutCacheState.new input measure).2.1 input measure).2.2
        = 1 ∧
      (computeLayoutLeaf attrs
          (computeLayoutLeaf attrs LayoutCacheState.new input measure).2.1 input measure).1 =
        (computeLayoutLeaf attrs LayoutCacheState.new input measure).1) := by
  refine ⟨getOrUpdate_hit, ?_⟩
  intro attrs input measure hself
  have h1 : computeLayoutLeaf attrs LayoutCacheState.new input measure =
      (leafMissCompute attrs measure input,
        LayoutCacheState.new.setSlot (selectSlot input)
          ⟨true, input, leafMissCompute attrs measure input⟩, 1) := by
    unfold computeLayoutLeaf
    exact getOrUpdate_miss _ _ _ (by simp [LayoutCacheState.new_slot_invalid])
  have hslot := LayoutCacheState.slot_setSlot_same LayoutCacheState.new (selectSlot input)
    ⟨true, input, leafMissCompute attrs measure input⟩
  have h2 : computeLayoutLeaf attrs
      (LayoutCacheState.new.setSlot (selectSlot input)
        ⟨true, input, leafMissCompute attrs measure input⟩) input measure =
      (leafMissCompute attrs measure input,
        LayoutCacheState.new.setSlot (selectSlot input)
          ⟨true, input, leafMissCompute attrs measure input⟩, 0) := by
    unfold computeLayoutLeaf
    rw [getOrUpdate_hit _ _ _ (by rw [hslot]) (by rw [hslot]; exact hself), hslot]
  rw [h1]
  dsimp only
  rw [h2]
  exact ⟨rfl, rfl⟩

def sampleMeasure : Size → F → Size := fun s _ => s

def sampleInput : LayoutInput := .computeSize (Size.new (F.fin 10) (F.fin 10)) (F.fin 1)

def zeroSizeRect : SizeRect := ⟨F.fin 0, F.fin 0, F.fin 0, F.fin 0⟩

def sampleAttrs : LayoutStyle :=
  { border_size := F.fin 0
    padding := zeroSizeRect
    margin := zeroSizeRect
    width := .fit
    height := .fit
    main_axis := .horizontal
    main_direction := .positive
    main_justify := .min
    cross_justify := .min }

/-- Witness for `cache_hit_law`: the two-call law at a concrete input. -/
theorem cache_hit_law_witness :
    (computeLayoutLeaf sampleAttrs LayoutCacheState.new sampleInput sampleMeasure).2.2 +
      (computeLayoutLeaf sampleAttrs
        (computeLayoutLeaf sampleAttrs LayoutCacheState.new sampleInput sampleMeasure).2.1
        sampleInput sampleMeasure).2.2 = 1 ∧
    (computeLayoutLeaf sampleAttrs
        (computeLayoutLeaf sampleAttrs LayoutCacheState.new sampleInput sampleMeasure).2.1
        sampleInput sampleMeasure).1 =
      (computeLayoutLeaf sampleAttrs LayoutCacheState.new sampleInput sampleMeasure).1 :=
  cache_hit_law.2 sampleAttrs sampleInput sampleMeasure
    (by simp [sampleInput, LayoutInput.beq, Size.beq, Size.new])

/-- Claim C10: the Observer returned by `run_and_track` is always Clean at the
moment `run_and_track` returns, for every effect `f` — even one that triggers
the in-flight observer while running — because the dirty flag is
unconditionally reset to Clean after `f` returns. -/
theorem run_and_track_returns_clean (T : Type) (w : World) (f : World → World × T) :
    (runAndTrack w f).2.1.dirty (runAndTrack w f).1 = false := by
  simp [runAndTrack, setClean]

/-- Claim C6: `Derived::maybe_update(model)` recomputes iff the cell's
Observer is Dirty: when Dirty it reruns the compute closure inside
`run_and_track`, replaces both the cached value and the Observer wholesale
(the new observer is the freshly allocated one, distinct from the old, and
Clean in the resulting world), and reports `true`; when Clean it reports
`false` and leaves the world, model and cell untouched. -/
theorem derived_maybe_update_spec {A V : Type} (w : World) (a : A) (d : Derived V)
    (compute : A → World → (A × World) × V)
    (hobs : d.as_observer < w.graph.n) :
    ((Derived.maybe_update w a d compute).1 = true ↔ w.dirty d.as_observer = true) ∧
    (w.dirty d.as_observer = false →
      Derived.maybe_update w a d compute = (false, w, a, d)) ∧
    (w.dirty d.as_observer = true →
      (Derived.maybe_update w a d compute).2.2.2.as_observer = w.graph.n ∧
      (Derived.maybe_update w a d compute).2.2.2.as_observer ≠ d.as_observer ∧
      (Derived.maybe_update w a d compute).2.1.dirty
        (Derived.maybe_update w a d compute).2.2.2.as_observer = false ∧
      (Derived.maybe_update w a d compute).2.2.2.value =
        (compute a (markDirtyW w d.as_observer).withFresh).2) := by
  by_cases hd : w.dirty d.as_observer = true
  · refine ⟨by simp [Derived.maybe_update, hd], fun hcon => ?_, fun _ => ?_⟩
    · rw [hcon] at hd
      exact Bool.noConfusion hd
    · refine ⟨?_, ?_, ?_, ?_⟩
      · simp [Derived.maybe_update, hd, runAndTrack]
      · simp [Derived.maybe_update, hd, runAndTrack]
        omega
      · simp [Derived.maybe_update, hd, runAndTrack, setClean]
      · simp [Derived.maybe_update, hd, runAndTrack]
  · have hd' : w.dirty d.as_observer = false := by simpa using hd
    refine ⟨by simp [Derived.maybe_update, hd'], fun _ => ?_, fun hcon => ?_⟩
    · simp [Derived.maybe_update, hd']
    · rw [hcon] at hd'
      exact Bool.noConfusion hd'

def sampleWorld : World :=
  { graph := { n := 1, alive := fun _ => true, deps := fun _ => [] }
    dirty := fun _ => true
    scope := none }

def sampleDerived : Derived Nat := ⟨0, 0⟩

def sampleCompute : Nat → World → (Nat × World) × Nat := fun a w => ((a, w), 42)

/-- Witness for `derived_maybe_update_spec` at a concrete dirty cell. -/
theorem derived_maybe_update_spec_witness :
    ((Derived.maybe_update sampleWorld 0 sampleDerived sampleCompute).1 = true ↔
      sampleWorld.dirty sampleDerived.as_observer = true) ∧
    (sampleWorld.dirty sampleDerived.as_observer = false →
      Derived.maybe_update sampleWorld 0 sampleDerived sampleCompute =
        (false, sampleWorld, 0, sampleDerived)) ∧
    (sampleWorld.dirty sampleDerived.as_observer = true →
      (Derived.maybe_update sampleWorld 0 sampleDerived sampleCompute).2.2.2.as_observer =
        sampleWorld.graph.n ∧
      (Derived.maybe_update sampleWorld 0 sampleDerived sampleCompute).2.2.2.as_observer ≠
        sampleDerived.as_observer ∧
      (Derived.maybe_update sampleWorld 0 sampleDerived sampleCompute).2.1.dirty
        (Derived.maybe_update sampleWorld 0 sampleDerived sampleCompute).2.2.2.as_observer
        = false ∧
      (Derived.maybe_update sampleWorld 0 sampleDerived sampleCompute).2.2.2.value =
        (sampleCompute 0
          (markDirtyW sampleWorld sampleDerived.as_observer).withFresh).2) :=
  derived_maybe_update_spec sampleWorld 0 sampleDerived sampleCompute (by decide)

/-! Claim C5: the leaf layout algorithm. -/

def c5Attrs : LayoutStyle :=
  { sampleAttrs with margin := ⟨F.fin 1, F.fin 1, F.fin 1, F.fin 1⟩ }

def c5Input : LayoutInput := .computeSize (Size.new (F.fin 10) (F.fin 10)) (F.fin 1)

/-- The spacing of `c5Attrs` at scale factor 1, exactly as
`compute_layout_leaf` computes it. -/
def c5Spacing : SizeRect :=
  c5Input.scale_factor *
    (c5Attrs.margin + c5Attrs.padding + SizeRect.from_border c5Attrs.border_size)

/-- Claim C5, failing input: `compute_layout_leaf` shrinks the available size
by the spacing to get the content budget and invokes the measure closure on
it, but it stores the measured size *itself* as the margin-box size — the
spacing is never re-added.  With uniform margin 1, available `(10, 10)`,
scale factor 1 and the identity measure closure, the stored margin box is
`Rect(0, 0, 8, 8)`, not the `8 + 2 = 10` per axis that the claim (and the
rest of the code: `get_final_layout`'s box decomposition and the container's
`ComputeSize` branch, which does re-add spacing) expects. -/
theorem leaf_stores_measured_size_without_spacing :
    (computeLayoutLeaf c5Attrs LayoutCacheState.new c5Input sampleMeasure).1.margin_box =
      Rect.from_topleft_size ⟨F.fin 0, F.fin 0⟩ (Size.new (F.fin 8) (F.fin 8)) ∧
    (computeLayoutLeaf c5Attrs LayoutCacheState.new c5Input sampleMeasure).1.margin_box.size ≠
      sampleMeasure (c5Input.available - c5Spacing.sum_axes) c5Input.scale_factor +
        c5Spacing.sum_axes := by
  have heval : computeLayoutLeaf c5Attrs LayoutCacheState.new c5Input sampleMeasure =
      (⟨Rect.from_topleft_size ⟨F.fin 0, F.fin 0⟩ (Size.new (F.fin 8) (F.fin 8))⟩,
        LayoutCacheState.new.setSlot .known
          ⟨true, c5Input, ⟨Rect.from_topleft_size ⟨F.fin 0, F.fin 0⟩
            (Size.new (F.fin 8) (F.fin 8))⟩⟩, 1) := by
    unfold computeLayoutLeaf getOrUpdate
    norm_num [c5Input, c5Attrs, sampleAttrs, sampleMeasure, zeroSizeRect, selectSlot,
      LayoutCacheState.new, LayoutCacheState.slot, CachedLayout.new_invalid,
      leafMissCompute, LayoutInput.scale_factor, LayoutInput.available,
      SizeRect.from_border, SizeRect.new, SizeRect.sum_axes,
      Size.new, Size.width, Size.height, Size.axis,
      Rect.from_topleft_size, Size.beq]
    exact ⟨rfl, rfl⟩
  rw [heval]
  constructor
  · rfl
  · intro hcon
    have : Size.new (F.fin 8) (F.fin 8) =
        sampleMeasure (c5Input.available - c5Spacing.sum_axes) c5Input.scale_factor +
          c5Spacing.sum_axes := hcon
    norm_num [c5Input, c5Spacing, c5Attrs, sampleAttrs, sampleMeasure, zeroSizeRect,
      LayoutInput.scale_factor, LayoutInput.available,
      SizeRect.from_border, SizeRect.new, SizeRect.sum_axes,
      Size.new, Size.mk.injEq, F.fin.injEq] at this

/-! Claim C3: box nesting for `get_final_layout`. -/

theorem shrink_by_fin (x y w h l r t b : ℚ) :
    (Rect.mk (F.fin x) (F.fin y) (F.fin w) (F.fin h)).shrink_by
        ⟨F.fin l, F.fin r, F.fin t, F.fin b⟩ =
      ⟨F.fin (x + l), F.fin (y + t), F.fin (x + w - r - (x + l)),
       F.fin (y + h - b - (y + t))⟩ := by
  simp [Rect.shrink_by, Rect.from_lrtb, Rect.from_xywh,
    Rect.left, Rect.right, Rect.top, Rect.bottom]

theorem clamp_positive_fin (x y w h : ℚ) :
    (Rect.mk (F.fin x) (F.fin y) (F.fin w) (F.fin h)).clamp_positive =
      ⟨F.fin x, F.fin y, F.fin (max w 0), F.fin (max h 0)⟩ := by
  simp [Rect.clamp_positive]

theorem containsRect_fin_iff (x1 y1 w1 h1 x2 y2 w2 h2 : ℚ) :
    Rect.containsRect ⟨F.fin x1, F.fin y1, F.fin w1, F.fin h1⟩
        ⟨F.fin x2, F.fin y2, F.fin w2, F.fin h2⟩ ↔
      (x1 ≤ x2 ∧ x2 + w2 ≤ x1 + w1 ∧ y1 ≤ y2 ∧ y2 + h2 ≤ y1 + h1) := by
  simp [Rect.containsRect, Rect.left, Rect.right, Rect.top, Rect.bottom]

/-- Nesting of two clamped shrinks of the same finite rectangle: if the inner
shrink amounts dominate the (non-negative) outer ones and still fit inside
the rectangle, the inner clamped box is contained in the outer clamped box. -/
theorem clamp_contains (x y w h l1 r1 t1 b1 l2 r2 t2 b2 : ℚ)
    (h1l : 0 ≤ l1) (h1t : 0 ≤ t1)
    (hl : l1 ≤ l2) (hr : r1 ≤ r2) (ht : t1 ≤ t2) (hb : b1 ≤ b2)
    (hw : l2 + r2 ≤ w) (hh : t2 + b2 ≤ h) :
    Rect.containsRect
      (((Rect.mk (F.fin x) (F.fin y) (F.fin w) (F.fin h)).shrink_by
          ⟨F.fin l1, F.fin r1, F.fin t1, F.fin b1⟩).clamp_positive)
      (((Rect.mk (F.fin x) (F.fin y) (F.fin w) (F.fin h)).shrink_by
          ⟨F.fin l2, F.fin r2, F.fin t2, F.fin b2⟩).clamp_positive) := by
  rw [shrink_by_fin, shrink_by_fin, clamp_positive_fin, clamp_positive_fin]
  have e1 : max (x + w - r1 - (x + l1)) 0 = x + w - r1 - (x + l1) :=
    max_eq_left (by linarith)
  have e2 : max (y + h - b1 - (y + t1)) 0 = y + h - b1 - (y + t1) :=
    max_eq_left (by linarith)
  have e3 : max (x + w - r2 - (x + l2)) 0 = x + w - r2 - (x + l2) :=
    max_eq_left (by linarith)
  have e4 : max (y + h - b2 - (y + t2)) 0 = y + h - b2 - (y + t2) :=
    max_eq_left (by linarith)
  rw [e1, e2, e3, e4, containsRect_fin_iff]
  refine ⟨by linarith, by linarith, by linarith, by linarith⟩

/-- The outermost step: a clamped shrink of a finite rectangle is contained in
the clamped rectangle itself, provided the shrink amounts are non-negative
and fit. -/
theorem clamp_contains_outer (x y w h l2 r2 t2 b2 : ℚ)
    (h2l : 0 ≤ l2) (h2r : 0 ≤ r2) (h2t : 0 ≤ t2) (h2b : 0 ≤ b2)
    (hw : l2 + r2 ≤ w) (hh : t2 + b2 ≤ h) :
    Rect.containsRect ((Rect.mk (F.fin x) (F.fin y) (F.fin w) (F.fin h)).clamp_positive)
      (((Rect.mk (F.fin x) (F.fin y) (F.fin w) (F.fin h)).shrink_by
          ⟨F.fin l2, F.fin r2, F.fin t2, F.fin b2⟩).clamp_positive) := by
  rw [shrink_by_fin, clamp_positive_fin, clamp_positive_fin]
  have e3 : max (x + w - r2 - (x + l2)) 0 = x + w - r2 - (x + l2) :=
    max_eq_left (by linarith)
  have e4 : max (y + h - b2 - (y + t2)) 0 = y + h - b2 - (y + t2) :=
    max_eq_left (by linarith)
  rw [e3, e4, containsRect_fin_iff]
  have hmw : w ≤ max w 0 := le_max_left w 0
  have hmh : h ≤ max h 0 := le_max_left h 0
  refine ⟨by linarith, by linarith, by linarith, by linarith⟩

def c3Attrs : LayoutStyle :=
  { sampleAttrs with margin := ⟨F.fin 100, F.fin 100, F.fin 100, F.fin 100⟩ }

def c3CachedFinal : CachedLayout :=
  ⟨true, .finalLayout ⟨F.fin 0, F.fin 0, F.fin 200, F.fin 200⟩ (F.fin 1),
    ⟨⟨F.fin 0, F.fin 0, F.fin 10, F.fin 10⟩⟩⟩

/-- Claim C3, counterexample: with non-negative attributes (margin 100, zero
padding/border, scale factor 1) and a cached final margin box `Rect(0,0,10,10)`,
the clamped border box is `Rect(100,100,0,0)`, which is *not* contained in the
margin box `Rect(0,0,10,10)`: clamping repositions the over-shrunk, degenerate
box outside its parent, so the nesting law fails as stated. -/
theorem box_nesting_counterexample :
    ¬ Rect.containsRect ((getFinalLayout c3Attrs c3CachedFinal).2.margin_box)
        ((getFinalLayout c3Attrs c3CachedFinal).2.border_box) := by
  intro hcon
  have h1 : (getFinalLayout c3Attrs c3CachedFinal).2.margin_box =
      ⟨F.fin 0, F.fin 0, F.fin 10, F.fin 10⟩ := by
    show (⟨⟨F.fin 0, F.fin 0, F.fin 10, F.fin 10⟩⟩ : ComputedLayout).margin_box.clamp_positive = _
    rw [clamp_positive_fin]
    norm_num
  have h2 : (getFinalLayout c3Attrs c3CachedFinal).2.border_box =
      ⟨F.fin 100, F.fin 100, F.fin 0, F.fin 0⟩ := by
    show ((⟨⟨F.fin 0, F.fin 0, F.fin 10, F.fin 10⟩⟩ : ComputedLayout).margin_box.shrink_by
        ((F.fin 1) * (c3Attrs.margin +
          F.fin (1/2) * SizeRect.from_border c3Attrs.border_size))).clamp_positive = _
    have hshr : (F.fin 1 : F) * (c3Attrs.margin +
        F.fin (1/2) * SizeRect.from_border c3Attrs.border_size) =
        ⟨F.fin 100, F.fin 100, F.fin 100, F.fin 100⟩ := by
      norm_num [c3Attrs, sampleAttrs, SizeRect.from_border, SizeRect.new]
    rw [hshr, shrink_by_fin, clamp_positive_fin]
    norm_num
  rw [h1, h2, containsRect_fin_iff] at hcon
  have := hcon.2.1
  norm_num at this

/-- Claim C3 (amended): for every `Layout` produced by `get_final_layout` with
finite cached margin box and non-negative finite margin, padding, border and
scale factor, the boxes are exactly the claimed clamped shrinks of the margin
box (shrink amounts `scale_factor×(margin + ½border)`,
`scale_factor×(margin + border)`, `scale_factor×(margin + padding + border)`),
and — *provided the total spacing fits inside the margin box on both axes, so
that the non-negativity clamp is inert* — they nest:
`content_box ⊆ padding_box ⊆ border_box ⊆ margin_box`.  Without that proviso
the nesting can fail (see `box_nesting_counterexample`). -/
theorem box_nesting_amended (attrs : LayoutStyle) (cf : CachedLayout)
    (x y w h ml mr mt mb pl pr pt pb b s : ℚ)
    (hmbx : cf.cached.margin_box = ⟨F.fin x, F.fin y, F.fin w, F.fin h⟩)
    (hsf : cf.with_input.scale_factor = F.fin s)
    (hm : attrs.margin = ⟨F.fin ml, F.fin mr, F.fin mt, F.fin mb⟩)
    (hp : attrs.padding = ⟨F.fin pl, F.fin pr, F.fin pt, F.fin pb⟩)
    (hbs : attrs.border_size = F.fin b)
    (hs0 : 0 ≤ s) (hml : 0 ≤ ml) (hmr : 0 ≤ mr) (hmt : 0 ≤ mt) (hmb0 : 0 ≤ mb)
    (hpl : 0 ≤ pl) (hpr : 0 ≤ pr) (hpt : 0 ≤ pt) (hpb : 0 ≤ pb) (hb0 : 0 ≤ b)
    (hbw : s * (ml + mr + pl + pr + 2 * b) ≤ w)
    (hbh : s * (mt + mb + pt + pb + 2 * b) ≤ h) :
    ((getFinalLayout attrs cf).2.margin_box = cf.cached.margin_box.clamp_positive ∧
     (getFinalLayout attrs cf).2.border_box =
       (cf.cached.margin_box.shrink_by (cf.with_input.scale_factor *
         (attrs.margin + F.fin (1/2) * SizeRect.from_border attrs.border_size))).clamp_positive ∧
     (getFinalLayout attrs cf).2.padding_box =
       (cf.cached.margin_box.shrink_by (cf.with_input.scale_factor *
         (attrs.margin + SizeRect.from_border attrs.border_size))).clamp_positive ∧
     (getFinalLayout attrs cf).2.content_box =
       (cf.cached.margin_box.shrink_by (cf.with_input.scale_factor *
         (attrs.margin + attrs.padding + SizeRect.from_border attrs.border_size))).clamp_positive) ∧
    Rect.containsRect ((getFinalLayout attrs cf).2.margin_box)
      ((getFinalLayout attrs cf).2.border_box) ∧
    Rect.containsRect ((getFinalLayout attrs cf).2.border_box)
      ((getFinalLayout attrs cf).2.padding_box) ∧
    Rect.containsRect ((getFinalLayout attrs cf).2.padding_box)
      ((getFinalLayout attrs cf).2.content_box) := by
  have hshr1 : cf.with_input.scale_factor *
      (attrs.margin + F.fin (1/2) * SizeRect.from_border attrs.border_size) =
      ⟨F.fin (s * (ml + 1/2 * b)), F.fin (s * (mr + 1/2 * b)),
       F.fin (s * (mt + 1/2 * b)), F.fin (s * (mb + 1/2 * b))⟩ := by
    rw [hsf, hm, hbs]
    simp [SizeRect.from_border, SizeRect.new]
  have hshr2 : cf.with_input.scale_factor *
      (attrs.margin + SizeRect.from_border attrs.border_size) =
      ⟨F.fin (s * (ml + b)), F.fin (s * (mr + b)),
       F.fin (s * (mt + b)), F.fin (s * (mb + b))⟩ := by
    rw [hsf, hm, hbs]
    simp [SizeRect.from_border, SizeRect.new]
  have hshr3 : cf.with_input.scale_factor *
      (attrs.margin + attrs.padding + SizeRect.from_border attrs.border_size) =
      ⟨F.fin (s * (ml + pl + b)), F.fin (s * (mr + pr + b)),
       F.fin (s * (mt + pt + b)), F.fin (s * (mb + pb + b))⟩ := by
    rw [hsf, hm, hp, hbs]
    simp [SizeRect.from_border, SizeRect.new]
  have hsml : 0 ≤ s * ml := mul_nonneg hs0 hml
  have hsmr : 0 ≤ s * mr := mul_nonneg hs0 hmr
  have hsmt : 0 ≤ s * mt := mul_nonneg hs0 hmt
  have hsmb : 0 ≤ s * mb := mul_nonneg hs0 hmb0
  have hspl : 0 ≤ s * pl := mul_nonneg hs0 hpl
  have hspr : 0 ≤ s * pr := mul_nonneg hs0 hpr
  have hspt : 0 ≤ s * pt := mul_nonneg hs0 hpt
  have hspb : 0 ≤ s * pb := mul_nonneg hs0 hpb
  have hsb : 0 ≤ s * b := mul_nonneg hs0 hb0
  have e_margin : (getFinalLayout attrs cf).2.margin_box =
      cf.cached.margin_box.clamp_positive := rfl
  have e_border : (getFinalLayout attrs cf).2.border_box =
      (cf.cached.margin_box.shrink_by (cf.with_input.scale_factor *
        (attrs.margin + F.fin (1/2) * SizeRect.from_border attrs.border_size))).clamp_positive :=
    rfl
  have e_padding : (getFinalLayout attrs cf).2.padding_box =
      (cf.cached.margin_box.shrink_by (cf.with_input.scale_factor *
        (attrs.margin + SizeRect.from_border attrs.border_size))).clamp_positive := rfl
  have e_content : (getFinalLayout attrs cf).2.content_box =
      (cf.cached.margin_box.shrink_by (cf.with_input.scale_factor *
        (attrs.margin + attrs.padding + SizeRect.from_border attrs.border_size))).clamp_positive :=
    rfl
  have hbw' : s * ml + s * mr + s * pl + s * pr + 2 * (s * b) ≤ w := by
    have e : s * (ml + mr + pl + pr + 2 * b) =
        s * ml + s * mr + s * pl + s * pr + 2 * (s * b) := by ring
    linarith [hbw, e]
  have hbh' : s * mt + s * mb + s * pt + s * pb + 2 * (s * b) ≤ h := by
    have e : s * (mt + mb + pt + pb + 2 * b) =
        s * mt + s * mb + s * pt + s * pb + 2 * (s * b) := by ring
    linarith [hbh, e]
  have exml : s * (ml + 1/2 * b) = s * ml + (1/2) * (s * b) := by ring
  have exmr : s * (mr + 1/2 * b) = s * mr + (1/2) * (s * b) := by ring
  have exmt : s * (mt + 1/2 * b) = s * mt + (1/2) * (s * b) := by ring
  have exmb : s * (mb + 1/2 * b) = s * mb + (1/2) * (s * b) := by ring
  have eyml : s * (ml + b) = s * ml + s * b := by ring
  have eymr : s * (mr + b) = s * mr + s * b := by ring
  have eymt : s * (mt + b) = s * mt + s * b := by ring
  have eymb : s * (mb + b) = s * mb + s * b := by ring
  have ezml : s * (ml + pl + b) = s * ml + s * pl + s * b := by ring
  have ezmr : s * (mr + pr + b) = s * mr + s * pr + s * b := by ring
  have ezmt : s * (mt + pt + b) = s * mt + s * pt + s * b := by ring
  have ezmb : s * (mb + pb + b) = s * mb + s * pb + s * b := by ring
  refine ⟨⟨e_margin, e_border, e_padding, e_content⟩, ?_, ?_, ?_⟩
  · rw [e_margin, e_border, hmbx, hshr1]
    refine clamp_contains_outer x y w h _ _ _ _ ?_ ?_ ?_ ?_ ?_ ?_
    · linarith [exml]
    · linarith [exmr]
    · linarith [exmt]
    · linarith [exmb]
    · linarith [exml, exmr, hbw']
    · linarith [exmt, exmb, hbh']
  · rw [e_border, e_padding, hmbx, hshr1, hshr2]
    refine clamp_contains x y w h _ _ _ _ _ _ _ _ ?_ ?_ ?_ ?_ ?_ ?_ ?_ ?_
    · linarith [exml]
    · linarith [exmt]
    · linarith [exml, eyml]
    · linarith [exmr, eymr]
    · linarith [exmt, eymt]
    · linarith [exmb, eymb]
    · linarith [eyml, eymr, hbw']
    · linarith [eymt, eymb, hbh']
  · rw [e_padding, e_content, hmbx, hshr2, hshr3]
    refine clamp_contains x y w h _ _ _ _ _ _ _ _ ?_ ?_ ?_ ?_ ?_ ?_ ?_ ?_
    · linarith [eyml]
    · linarith [eymt]
    · linarith [eyml, ezml]
    · linarith [eymr, ezmr]
    · linarith [eymt, ezmt]
    · linarith [eymb, ezmb]
    · linarith [ezml, ezmr, hbw']
    · linarith [ezmt, ezmb, hbh']

def c3wAttrs : LayoutStyle :=
  { border_size := F.fin 1
    padding := ⟨F.fin 1, F.fin 1, F.fin 1, F.fin 1⟩
    margin := ⟨F.fin 1, F.fin 1, F.fin 1, F.fin 1⟩
    width := .fit
    height := .fit
    main_axis := .horizontal
    main_direction := .positive
    main_justify := .min
    cross_justify := .min }

def c3wCached : CachedLayout :=
  ⟨true, .finalLayout ⟨F.fin 0, F.fin 0, F.fin 100, F.fin 100⟩ (F.fin 1),
    ⟨⟨F.fin 0, F.fin 0, F.fin 100, F.fin 100⟩⟩⟩

/-- Witness for `box_nesting_amended` at margin box 100×100 with unit
margin/padding/border at scale factor 1. -/
theorem box_nesting_amended_witness :
    Rect.containsRect ((getFinalLayout c3wAttrs c3wCached).2.margin_box)
      ((getFinalLayout c3wAttrs c3wCached).2.border_box) ∧
    Rect.containsRect ((getFinalLayout c3wAttrs c3wCached).2.border_box)
      ((getFinalLayout c3wAttrs c3wCached).2.padding_box) ∧
    Rect.containsRect ((getFinalLayout c3wAttrs c3wCached).2.padding_box)
      ((getFinalLayout c3wAttrs c3wCached).2.content_box) :=
  (box_nesting_amended c3wAttrs c3wCached 0 0 100 100 1 1 1 1 1 1 1 1 1 1
    rfl rfl rfl rfl rfl
    (by norm_num) (by norm_num) (by norm_num) (by norm_num) (by norm_num)
    (by norm_num) (by norm_num) (by norm_num) (by norm_num) (by norm_num)
    (by norm_num) (by norm_num)).2

/-! Claim C9: the arrangement assertion. -/

theorem F.beq_sub_fin_inf (x : F) (c : ℚ) :
    F.beq (x - F.fin c) F.inf = true ↔ x = F.inf := by
  cases x <;> simp

theorem computeLayoutWithChildren_final_none_iff (attrs : LayoutStyle)
    (children : List ChildElement) (allocated : Rect) (sf : F) :
    computeLayoutWithChildren attrs (.finalLayout allocated sf) children = none ↔
      F.beq ((allocated.size - (sf * (attrs.margin + attrs.padding +
        SizeRect.from_border attrs.border_size)).sum_axes).axis attrs.main_axis)
        F.inf = true := by
  unfold computeLayoutWithChildren
  dsimp only [LayoutInput.available, LayoutInput.scale_factor]
  split_ifs with hbeq
  · exact iff_of_true rfl hbeq
  · exact iff_of_false (by simp) hbeq

/-- Claim C9 (arrangement assertion safety): for every `ComputeSize` input the
container returns before the arrangement phase, even with infinite
availability, so the assertion is unreachable; for a `FinalLayout` with
finite spacing attributes and scale factor, the
`assert_ne!(main_available, f32::INFINITY)` assertion (modelled as returning
`none`) fires exactly when the allocated rect's main-axis extent is infinite
— a caller contract violation. -/
theorem arrange_assert_spec :
    (∀ (attrs : LayoutStyle) (children : List ChildElement) (available : Size) (sf : F),
      (computeLayoutWithChildren attrs (.computeSize available sf) children).isSome = true) ∧
    (∀ (attrs : LayoutStyle) (children : List ChildElement) (allocated : Rect) (sf : F)
        (ml mr mt mb pl pr pt pb b s : ℚ),
      attrs.margin = ⟨F.fin ml, F.fin mr, F.fin mt, F.fin mb⟩ →
      attrs.padding = ⟨F.fin pl, F.fin pr, F.fin pt, F.fin pb⟩ →
      attrs.border_size = F.fin b →
      sf = F.fin s →
      (computeLayoutWithChildren attrs (.finalLayout allocated sf) children = none ↔
        allocated.size.axis attrs.main_axis = F.inf)) := by
  constructor
  · intro attrs children available sf
    unfold computeLayoutWithChildren
    dsimp only
    rfl
  · intro attrs children allocated sf ml mr mt mb pl pr pt pb b s hm hp hbs hsf
    subst hsf
    rw [computeLayoutWithChildren_final_none_iff, hm, hp, hbs]
    have hsp : ((F.fin s : F) *
        (SizeRect.mk (F.fin ml) (F.fin mr) (F.fin mt) (F.fin mb) +
          SizeRect.mk (F.fin pl) (F.fin pr) (F.fin pt) (F.fin pb) +
          SizeRect.from_border (F.fin b))).sum_axes =
        Size.mk (F.fin (s * (mt + pt + b) + s * (mb + pb + b)))
          (F.fin (s * (ml + pl + b) + s * (mr + pr + b))) := by
      simp [SizeRect.from_border, SizeRect.new, SizeRect.sum_axes]
    rw [hsp]
    cases hax : attrs.main_axis with
    | horizontal =>
      simp [Size.axis, Rect.size, Size.new, F.beq_sub_fin_inf]
    | vertical =>
      simp [Size.axis, Rect.size, Size.new, F.beq_sub_fin_inf]

def c9Rect : Rect := ⟨F.fin 0, F.fin 0, F.inf, F.fin 10⟩

/-- Witness for `arrange_assert_spec`: an unbounded main-axis allocation on a
horizontal container makes a `FinalLayout` request panic. -/
theorem arrange_assert_spec_witness :
    computeLayoutWithChildren sampleAttrs (.finalLayout c9Rect (F.fin 1)) [] = none ↔
      c9Rect.size.axis sampleAttrs.main_axis = F.inf :=
  arrange_assert_spec.2 sampleAttrs [] c9Rect (F.fin 1) 0 0 0 0 0 0 0 0 0 1
    rfl rfl rfl rfl

/-! Claim C4: expand distribution. -/

/-- In the placement loop, every child whose main-axis sizing is `Expand` is
allocated exactly `space_per_expand * 1.0` of main-axis extent, for any
finite cursor start, any direction and any finite recorded child sizes. -/
theorem placeChildren_expand_extent (ma : Axis) (md : Direction) (cj : Justify)
    (cb : Rect) (cs : Size) (s : ℚ) :
    ∀ (recs : List ChildRecord) (c : ℚ),
      (∀ rec ∈ recs, ∃ q, rec.child_content_size.axis ma = F.fin q) →
      List.Forall₂ (fun (rec : ChildRecord) (r : Rect) =>
          rec.child_main_sizing = Sizing.expand → r.size.axis ma = F.fin (s * 1))
        recs (placeChildren ma md cj cb cs (F.fin s) (F.fin c) recs) := by
  intro recs
  induction recs with
  | nil =>
    intro c _
    simp only [placeChildren]
    exact List.Forall₂.nil
  | cons rec rest ih =>
    intro c hfin
    obtain ⟨q, hq⟩ := hfin rec (List.mem_cons_self rec rest)
    have hfin' : ∀ r ∈ rest, ∃ q, r.child_content_size.axis ma = F.fin q :=
      fun r hr => hfin r (List.mem_cons_of_mem _ hr)
    simp only [placeChildren]
    refine List.Forall₂.cons ?_ ?_
    · intro hexp
      cases ma <;> cases md <;>
        simp [hexp, Rect.from_lrtb, Rect.from_xywh, Rect.size, Size.new, Size.axis]
    · rcases hsz : rec.child_main_sizing with _ | _ | v <;> cases md <;>
        simp only [hsz] <;>
        first
          | (have hc' :
              (F.fin c + F.fin s * F.fin 1 : F) = F.fin (c + s * 1) := by simp
             rw [hc']
             exact ih _ hfin')
          | (have hc' :
              (F.fin c - F.fin s * F.fin 1 : F) = F.fin (c - s * 1) := by simp
             rw [hc']
             exact ih _ hfin')
          | (rw [hq]
             have hc' : (F.fin c + F.fin q : F) = F.fin (c + q) := by simp
             rw [hc']
             exact ih _ hfin')
          | (rw [hq]
             have hc' : (F.fin c - F.fin q : F) = F.fin (c - q) := by simp
             rw [hc']
             exact ih _ hfin')

def c4Child : ChildElement := ⟨Sizing.expand, Sizing.expand, fun _ _ => Rect.zeroed⟩

def c4Input : LayoutInput := .finalLayout ⟨F.fin 0, F.fin 0, F.fin 100, F.fin 20⟩ (F.fin 1)

/-- Claim C4 (expand distribution): a horizontal container with zero
margin/padding/border, main-axis content size 100, holding exactly two
`Expand` children, places them at `Rect(0,0,50,20)` and `Rect(50,0,50,20)` —
each with main-axis extent `50 = remaining / total_expand_factor = 100 / 2`,
contiguous (the first child's right edge is the second's left edge) and
non-overlapping; and in general every `Expand` child is allocated exactly
`space_per_expand` of main-axis extent by the placement loop. -/
theorem expand_distribution :
    (computeLayoutWithChildren sampleAttrs c4Input [c4Child, c4Child] =
      some (⟨⟨F.fin 0, F.fin 0, F.fin 100, F.fin 20⟩⟩,
        [⟨F.fin 0, F.fin 0, F.fin 50, F.fin 20⟩, ⟨F.fin 50, F.fin 0, F.fin 50, F.fin 20⟩])) ∧
    ((Rect.mk (F.fin 0) (F.fin 0) (F.fin 50) (F.fin 20)).size.axis sampleAttrs.main_axis
        = F.fin 50 ∧
     (Rect.mk (F.fin 50) (F.fin 0) (F.fin 50) (F.fin 20)).size.axis sampleAttrs.main_axis
        = F.fin 50) ∧
    ((Rect.mk (F.fin 0) (F.fin 0) (F.fin 50) (F.fin 20)).right =
      (Rect.mk (F.fin 50) (F.fin 0) (F.fin 50) (F.fin 20)).left) ∧
    (∀ (ma : Axis) (md : Direction) (cj : Justify) (cb : Rect) (cs : Size) (s : ℚ)
        (recs : List ChildRecord) (c : ℚ),
      (∀ rec ∈ recs, ∃ q, rec.child_content_size.axis ma = F.fin q) →
      List.Forall₂ (fun (rec : ChildRecord) (r : Rect) =>
          rec.child_main_sizing = Sizing.expand → r.size.axis ma = F.fin (s * 1))
        recs (placeChildren ma md cj cb cs (F.fin s) (F.fin c) recs)) := by
  refine ⟨?_, ⟨?_, ?_⟩, ?_, ?_⟩
  · simp [computeLayoutWithChildren, measureChild, placeChildren, c4Input, c4Child,
      sampleAttrs, zeroSizeRect, Axis.cross, Sizing.as_definite,
      LayoutInput.available, LayoutInput.scale_factor,
      SizeRect.from_border, SizeRect.new, SizeRect.sum_axes, SizeRect.from_axis,
      Size.new, Size.axis, Size.from_axes, Size.width, Size.height,
      Rect.from_lrtb, Rect.from_xywh, Rect.from_topleft_size, Rect.size, Rect.zeroed,
      Rect.left, Rect.right, Rect.top, Rect.bottom, Rect.shrink_by]
    norm_num
  · simp [Rect.size, Size.new, Size.axis, sampleAttrs]
  · simp [Rect.size, Size.new, Size.axis, sampleAttrs]
  · simp [Rect.right, Rect.left]
  · intro ma md cj cb cs s recs c hfin
    exact placeChildren_expand_extent ma md cj cb cs s recs c hfin

/-- Witness for `expand_distribution`'s general clause at a concrete record
list. -/
theorem expand_distribution_witness :
    List.Forall₂ (fun (rec : ChildRecord) (r : Rect) =>
        rec.child_main_sizing = Sizing.expand → r.size.axis Axis.horizontal = F.fin (7 * 1))
      [⟨Sizing.expand, Sizing.expand, Size.new (F.fin 0) (F.fin 0)⟩]
      (placeChildren Axis.horizontal Direction.positive Justify.min
        Rect.zeroed (Size.new (F.fin 0) (F.fin 0)) (F.fin 7) (F.fin 0)
        [⟨Sizing.expand, Sizing.expand, Size.new (F.fin 0) (F.fin 0)⟩]) :=
  expand_distribution.2.2.2 Axis.horizontal Direction.positive Justify.min
    Rect.zeroed (Size.new (F.fin 0) (F.fin 0)) 7
    [⟨Sizing.expand, Sizing.expand, Size.new (F.fin 0) (F.fin 0)⟩] 0
    (by intro rec hrec
        simp at hrec
        subst hrec
        exact ⟨0, rfl⟩)

end Yoru
